import Mathlib

/-!
# Verification of the hw_info hierarchical data model and renderers

A shallow embedding of `src/hw_info.py`: the nested record model the tool
builds from the hardware probes, the per-field detail/privacy filtering in
the `get_*_info` collectors, the component selection in `main`, and the four
output paths (text, JSON, YAML via an abstract renderer, CSV via the
flattener).  Python dicts are embedded as ordered association lists, Python
lists as Lean lists, and scalar leaves as a small `Scalar` sum.  Functions
from the CPython runtime that the script leans on (`str()` on scalars and
lists, `str.strip()`, `dict(items)`, `csv.writer`, `json.dumps`/`json.loads`)
are modelled explicitly below, each next to the operation that uses it.
-/

namespace HwInfo

/-- A scalar leaf: the value kinds the collectors feed into the report
(strings, integers, booleans and Python `None`). -/
inductive Scalar where
  | str (s : String)
  | int (n : Int)
  | bool (b : Bool)
  | null
deriving DecidableEq, Repr

/-- The record model: a Python value as the tool manipulates it — a scalar,
an insertion-ordered dict (association list), or a list. -/
inductive Record where
  | scalar (v : Scalar)
  | dict (fields : List (String × Record))
  | list (items : List Record)
deriving Repr

/-! ## Models of the CPython primitives the script uses -/

/-- Decimal digit characters of `n`, most significant first
(the digits of Python `str(n)` for a non-negative `n`). -/
def natChars (n : Nat) : List Char :=
  if n < 10 then [Nat.digitChar n]
  else natChars (n / 10) ++ [Nat.digitChar (n % 10)]
termination_by n
decreasing_by omega

/-- Python `str()` on an `int`: optional minus sign, then decimal digits. -/
def intChars (i : Int) : List Char :=
  if i < 0 then '-' :: natChars i.natAbs else natChars i.natAbs

def intStr (i : Int) : String := String.mk (intChars i)

/-- Python `str()` on a scalar: strings pass through, ints print in decimal,
and `True` / `False` / `None` print with capital letters. -/
def Scalar.str_py : Scalar → String
  | .str s => s
  | .int n => intStr n
  | .bool true => "True"
  | .bool false => "False"
  | .null => "None"

/-- The whitespace set of Python `str.strip()` (its ASCII part). -/
def isPySpace (c : Char) : Bool :=
  c = ' ' || c = '\t' || c = '\n' || c = '\r' || c = '\x0b' || c = '\x0c'

/-- Python `str.strip()`: remove leading and trailing whitespace. -/
def pyStrip (s : String) : String :=
  String.mk (((s.data.dropWhile isPySpace).reverse.dropWhile isPySpace).reverse)

/-- The quote character Python `repr()` picks for a string: single quotes,
unless the string contains one and no double quote. -/
def pyReprQuote (s : String) : Char :=
  if s.data.contains '\'' && !(s.data.contains '"') then '"' else '\''

/-- One character inside a Python string `repr()`, with `q` the chosen quote
(the escapes for the printable scalars the collectors produce; other control
characters are out of the model's scope). -/
def pyReprEscape (q c : Char) : List Char :=
  if c = '\\' ∨ c = q then ['\\', c]
  else if c = '\n' then ['\\', 'n']
  else if c = '\r' then ['\\', 'r']
  else if c = '\t' then ['\\', 't']
  else [c]

/-- Python `repr()` on a string. -/
def pyReprStr (s : String) : String :=
  let q := pyReprQuote s
  String.mk (q :: (s.data.flatMap (pyReprEscape q) ++ [q]))

mutual
/-- Python `repr()` on a record value: like `str()` except that strings keep
their quotes; containers recurse with `repr` on every element. -/
def pyRepr : Record → String
  | .scalar (.str s) => pyReprStr s
  | .scalar v => v.str_py
  | .list its => "[" ++ pyReprItems its ++ "]"
  | .dict fs => "\x7b" ++ pyReprFields fs ++ "\x7d"

def pyReprItems : List Record → String
  | [] => ""
  | [x] => pyRepr x
  | x :: y :: rest => pyRepr x ++ ", " ++ pyReprItems (y :: rest)

def pyReprFields : List (String × Record) → String
  | [] => ""
  | [(k, v)] => pyReprStr k ++ ": " ++ pyRepr v
  | (k, v) :: e :: rest => pyReprStr k ++ ": " ++ pyRepr v ++ ", " ++ pyReprFields (e :: rest)
end

/-- Python `str()` on a record value: scalars by `str()`, containers fall
back to `repr()`. -/
def pyStr : Record → String
  | .scalar v => v.str_py
  | .list its => pyRepr (.list its)
  | .dict fs => pyRepr (.dict fs)

/-- One `d[k] = v` step on a Python dict held as an ordered association
list: an existing key keeps its position and takes the new value, a new key
is appended. -/
def pyIns {α : Type} (d : List (String × α)) (kv : String × α) : List (String × α) :=
  if (d.map Prod.fst).contains kv.1 then
    d.map (fun e => if e.1 = kv.1 then (e.1, kv.2) else e)
  else d ++ [kv]

/-- Python `dict(items)`: insert the pairs left to right. -/
def pyDict {α : Type} (l : List (String × α)) : List (String × α) :=
  l.foldl pyIns []

/-! ## The flattener (`flatten_dict` in the csv branch of `main`) -/

/-- The child path of key `k` under `parent_key`:
`f"{parent_key}.{k}" if parent_key else k`. -/
def joinKey (parent k : String) : String :=
  if parent = "" then k else parent ++ "." ++ k

/-- The indexed path of list position `i`: `f"{new_key}[{i}]"`. -/
def indexKey (base : String) (i : Nat) : String :=
  base ++ "[" ++ String.mk (natChars i) ++ "]"

mutual
/-- The `items` list `flatten_dict` accumulates over the entries of `d`: a
dict value contributes the items of its own (already key-merged) flattening,
a list value contributes via `flatten_list`, and any other value one pair
`(new_key, str(v))`. -/
def flatten_items : List (String × Record) → String → List (String × String)
  | [], _ => []
  | (k, v) :: rest, parent =>
    (match v with
     | .dict fs => pyDict (flatten_items fs (joinKey parent k))
     | .list its => flatten_list its (joinKey parent k) 0
     | .scalar sv => [(joinKey parent k, sv.str_py)]) ++ flatten_items rest parent

/-- The loop `for i, item in enumerate(v)` of `flatten_dict`: a dict item is
flattened under `f"{new_key}[{i}]"`, any other item (a scalar, or a nested
list) contributes the single pair `(f"{new_key}[{i}]", str(item))`. -/
def flatten_list : List Record → String → Nat → List (String × String)
  | [], _, _ => []
  | .dict fs :: rest, base, i =>
    pyDict (flatten_items fs (indexKey base i)) ++ flatten_list rest base (i + 1)
  | .scalar sv :: rest, base, i =>
    (indexKey base i, Scalar.str_py sv) :: flatten_list rest base (i + 1)
  | .list inner :: rest, base, i =>
    (indexKey base i, pyStr (.list inner)) :: flatten_list rest base (i + 1)
end

/-- `flatten_dict(d, parent_key)`: the accumulated items, merged into a
Python dict (`return dict(items)`). -/
def flatten_dict (d : List (String × Record)) (parent : String) : List (String × String) :=
  pyDict (flatten_items d parent)

/-! ## The CSV writer (`csv.writer` with the default dialect) -/

/-- A field needs quoting under `QUOTE_MINIMAL` when it contains the
delimiter, the quote character, or a line-terminator character. -/
def csvNeedsQuote (f : String) : Bool :=
  f.data.any (fun c => c = ',' || c = '"' || c = '\r' || c = '\n')

/-- One CSV field: quoted with doubled quote characters when needed. -/
def csvField (f : String) : String :=
  if csvNeedsQuote f then
    String.mk ('"' :: (f.data.flatMap (fun c => if c = '"' then ['"', '"'] else [c]) ++ ['"']))
  else f

/-- `writer.writerow`: comma-joined fields and a `\r\n` terminator; a row
holding a single empty field is written as `""` to stay distinguishable from
an empty row. -/
def writerow (fs : List String) : String :=
  (if fs = [""] then "\"\"" else String.intercalate "," (fs.map csvField)) ++ "\r\n"

/-- The csv branch of `main`: one header row of the flattened paths and one
data row of the flattened values. -/
def renderCsv (d : List (String × Record)) : String :=
  writerow ((flatten_dict d "").map Prod.fst) ++ writerow ((flatten_dict d "").map Prod.snd)

/-! ## The text renderer (`dict_to_text`) -/

/-- The literal indentation text: `" " * indent`. -/
def spaces (n : Nat) : String := String.mk (List.replicate n ' ')

mutual
/-- `dict_to_text(d, indent)`: a dict value emits `k:`, a newline, and its own
text at `indent + 2`; a list value emits `k:`, a newline, and its items at
`indent + 2`; any other value emits `f"{k}: {v}"` on one line. -/
def dict_to_text : List (String × Record) → Nat → String
  | [], _ => ""
  | (k, v) :: rest, ind =>
    (match v with
     | .dict fs => spaces ind ++ k ++ ":\n" ++ dict_to_text fs (ind + 2)
     | .list its => spaces ind ++ k ++ ":\n" ++ list_to_text its (ind + 2)
     | .scalar sv => spaces ind ++ k ++ ": " ++ sv.str_py ++ "\n") ++ dict_to_text rest ind

/-- The `for item in v` loop of `dict_to_text`: dict items recurse at the
given indent, any other item prints as `f"{item}"` on its own line. -/
def list_to_text : List Record → Nat → String
  | [], _ => ""
  | .dict fs :: rest, ind => dict_to_text fs ind ++ list_to_text rest ind
  | .scalar sv :: rest, ind => spaces ind ++ sv.str_py ++ "\n" ++ list_to_text rest ind
  | .list inner :: rest, ind => spaces ind ++ pyStr (.list inner) ++ "\n" ++ list_to_text rest ind
end

/-! ## The collectors (`HardwareInfo.get_*_info`)

Each collector is embedded as a function of the raw values the WMI / psutil
probes hand it (one structure per probe record) and the two detail flags; the
body mirrors the dict literals and the `if not minimal` / `if not
exclude_serials` updates of the source. -/

/-- Raw values behind `get_system_info`: `Win32_OperatingSystem` and
`Win32_ComputerSystem` fields. -/
structure SystemRaw where
  hostname : Scalar
  osName : Scalar
  osVersion : Scalar
  osArchitecture : Scalar
  buildNumber : Scalar
  installDate : Scalar
  lastBoot : Scalar
  manufacturer : Scalar
  serialNumber : Scalar
deriving DecidableEq, Repr

def get_system_info (r : SystemRaw) (minimal exclude_serials : Bool) : Record :=
  .dict [("hostname", .scalar r.hostname),
         ("os", .dict ([("name", .scalar r.osName),
                        ("version", .scalar r.osVersion),
                        ("architecture", .scalar r.osArchitecture)] ++
                       (if minimal then [] else
                        [("build_number", .scalar r.buildNumber),
                         ("install_date", .scalar (.str r.installDate.str_py)),
                         ("last_boot", .scalar (.str r.lastBoot.str_py)),
                         ("manufacturer", .scalar r.manufacturer)] ++
                        (if exclude_serials then [] else
                         [("serial_number", .scalar r.serialNumber)]))))]

/-- Raw values behind `get_cpu_info`: `Win32_Processor` fields
(`Name` is a string, since the code strips it). -/
structure CpuRaw where
  name : String
  cores : Scalar
  threads : Scalar
  architecture : Scalar
  manufacturer : Scalar
  maxClockSpeed : Scalar
  socket : Scalar
  status : Scalar
  virtualization : Scalar
deriving DecidableEq, Repr

def get_cpu_info (r : CpuRaw) (minimal : Bool) : Record :=
  .dict ([("name", .scalar (.str (pyStrip r.name))),
          ("cores", .scalar r.cores),
          ("threads", .scalar r.threads),
          ("architecture", .scalar r.architecture)] ++
         (if minimal then [] else
          [("manufacturer", .scalar r.manufacturer),
           ("max_clock_speed", .scalar r.maxClockSpeed),
           ("socket", .scalar r.socket),
           ("status", .scalar r.status),
           ("virtualization", .scalar r.virtualization)]))

/-- Raw values of one `Win32_PhysicalMemory` bank. -/
structure BankRaw where
  capacity : Scalar
  speed : Scalar
  manufacturer : Scalar
  partNumber : String
  deviceLocator : Scalar
deriving DecidableEq, Repr

/-- Raw values behind `get_memory_info`: the psutil total plus the banks. -/
structure MemoryRaw where
  total : Scalar
  banks : List BankRaw
deriving DecidableEq, Repr

def bank_info (b : BankRaw) (minimal : Bool) : Record :=
  .dict ([("capacity", .scalar b.capacity),
          ("speed", .scalar b.speed)] ++
         (if minimal then [] else
          [("manufacturer", .scalar b.manufacturer),
           ("part_number", .scalar (.str (pyStrip b.partNumber))),
           ("device_locator", .scalar b.deviceLocator)]))

def get_memory_info (r : MemoryRaw) (minimal : Bool) : Record :=
  .dict [("total", .scalar r.total),
         ("banks", .list (r.banks.map (fun b => bank_info b minimal)))]

/-- Raw values of one `Win32_DiskDrive` record. -/
structure DiskRaw where
  name : Scalar
  size : Scalar
  interfaceType : Scalar
  manufacturer : Scalar
  model : Scalar
  partitions : Scalar
  status : Scalar
  serialNumber : String
deriving DecidableEq, Repr

def disk_info (d : DiskRaw) (minimal exclude_serials : Bool) : Record :=
  .dict ([("name", .scalar d.name),
          ("size", .scalar d.size),
          ("interface_type", .scalar d.interfaceType)] ++
         (if minimal then [] else
          [("manufacturer", .scalar d.manufacturer),
           ("model", .scalar d.model),
           ("partitions", .scalar d.partitions),
           ("status", .scalar d.status)] ++
          (if exclude_serials then [] else
           [("serial_number", .scalar (.str (pyStrip d.serialNumber)))])))

def get_storage_info (disks : List DiskRaw) (minimal exclude_serials : Bool) : Record :=
  .list (disks.map (fun d => disk_info d minimal exclude_serials))

/-- Raw values of one `Win32_VideoController` record (`AdapterRAM` may be
Python `None`, which the code replaces by `0`). -/
structure GpuRaw where
  name : String
  adapterRAM : Scalar
  driverVersion : Scalar
  videoProcessor : Scalar
  videoMemoryType : Scalar
  videoArchitecture : Scalar
  status : Scalar
deriving DecidableEq, Repr

def gpu_info (g : GpuRaw) (minimal : Bool) : Record :=
  .dict ([("name", .scalar (.str (pyStrip g.name))),
          ("adapter_ram", .scalar (match g.adapterRAM with
                                   | .null => .int 0
                                   | v => v)),
          ("driver_version", .scalar g.driverVersion)] ++
         (if minimal then [] else
          [("video_processor", .scalar g.videoProcessor),
           ("video_memory_type", .scalar g.videoMemoryType),
           ("video_architecture", .scalar g.videoArchitecture),
           ("status", .scalar g.status)]))

def get_gpu_info (gpus : List GpuRaw) (minimal : Bool) : Record :=
  .list (gpus.map (fun g => gpu_info g minimal))

/-- Raw values behind `get_motherboard_info`: `Win32_BaseBoard` fields. -/
structure BoardRaw where
  manufacturer : Scalar
  product : Scalar
  version : Scalar
  serialNumber : String
deriving DecidableEq, Repr

/-- Raw values behind `get_motherboard_info`: `Win32_BIOS` fields. -/
structure BiosRaw where
  manufacturer : Scalar
  version : Scalar
  releaseDate : Scalar
  serialNumber : String
deriving DecidableEq, Repr

def get_motherboard_info (board : BoardRaw) (bios : BiosRaw)
    (minimal exclude_serials : Bool) : Record :=
  .dict ([("manufacturer", .scalar board.manufacturer),
          ("product", .scalar board.product)] ++
         (if minimal then [] else
          [("version", .scalar board.version),
           ("bios_manufacturer", .scalar bios.manufacturer),
           ("bios_version", .scalar bios.version),
           ("bios_release_date", .scalar (.str bios.releaseDate.str_py))] ++
          (if exclude_serials then [] else
           [("serial_number", .scalar (.str (pyStrip board.serialNumber))),
            ("bios_serial_number", .scalar (.str (pyStrip bios.serialNumber)))])))

/-- All raw probe data of one invocation. -/
structure AllRaw where
  system : SystemRaw
  cpu : CpuRaw
  memory : MemoryRaw
  disks : List DiskRaw
  gpus : List GpuRaw
  board : BoardRaw
  bios : BiosRaw
deriving DecidableEq, Repr

def collect_all (hw : AllRaw) (minimal exclude_serials : Bool) : List (String × Record) :=
  [("system", get_system_info hw.system minimal exclude_serials),
   ("cpu", get_cpu_info hw.cpu minimal),
   ("memory", get_memory_info hw.memory minimal),
   ("storage", get_storage_info hw.disks minimal exclude_serials),
   ("gpu", get_gpu_info hw.gpus minimal),
   ("motherboard", get_motherboard_info hw.board hw.bios minimal exclude_serials)]

/-! ## Component selection in `main` -/

/-- The command-line flags that shape the report. -/
structure Args where
  cpu : Bool
  memory : Bool
  storage : Bool
  gpu : Bool
  motherboard : Bool
  all : Bool
  minimal : Bool
  exclude_serials : Bool
  no_timestamps : Bool
deriving DecidableEq, Repr

/-- `show_all = args.all or not any([...])`. -/
def showAll (a : Args) : Bool :=
  a.all || !(a.cpu || a.memory || a.storage || a.gpu || a.motherboard)

/-- The `data` dict `main` assembles: everything (in canonical order) when
`show_all`, else the explicitly flagged subsystems in the source's insertion
order, then the timestamp entry unless suppressed.  `now` stands for the
externally obtained `datetime.now().isoformat()` string. -/
def selectData (a : Args) (hw : AllRaw) (now : String) : List (String × Record) :=
  (if showAll a then collect_all hw a.minimal a.exclude_serials
   else
     (if a.cpu then [("cpu", get_cpu_info hw.cpu a.minimal)] else []) ++
     (if a.memory then [("memory", get_memory_info hw.memory a.minimal)] else []) ++
     (if a.storage then
        [("storage", get_storage_info hw.disks a.minimal a.exclude_serials)] else []) ++
     (if a.gpu then [("gpu", get_gpu_info hw.gpus a.minimal)] else []) ++
     (if a.motherboard then
        [("motherboard", get_motherboard_info hw.board hw.bios a.minimal a.exclude_serials)]
      else [])) ++
  (if a.no_timestamps then [] else [("timestamp", .scalar (.str now))])

/-- The canonical subsystem order of the assembled report. -/
def canonicalKeys : List String :=
  ["system", "cpu", "memory", "storage", "gpu", "motherboard"]

/-- Whether a subsystem name is in the chosen set of an invocation. -/
def chosenKey (a : Args) (k : String) : Bool :=
  if k = "system" then showAll a
  else if k = "cpu" then showAll a || a.cpu
  else if k = "memory" then showAll a || a.memory
  else if k = "storage" then showAll a || a.storage
  else if k = "gpu" then showAll a || a.gpu
  else if k = "motherboard" then showAll a || a.motherboard
  else false

/-! ## Key observation helpers -/

mutual
/-- Every dict key occurring anywhere in a record tree. -/
def allKeys : Record → List String
  | .scalar _ => []
  | .dict fs => allKeysF fs
  | .list its => allKeysI its

def allKeysF : List (String × Record) → List String
  | [] => []
  | (k, v) :: rest => k :: (allKeys v ++ allKeysF rest)

def allKeysI : List Record → List String
  | [] => []
  | x :: rest => allKeys x ++ allKeysI rest
end

/-! ## The JSON renderer (`json.dumps(..., ensure_ascii=False)`)

The compact form uses the default separators `", "` and `": "`; the pretty
form (`indent=2`) separates items with `","` plus a newline and indents two
spaces per nesting level.  Rendering works on character lists; the `String`
wrappers below pack the result. -/

/-- One character of a JSON string, escaped as `json.dumps` does with
`ensure_ascii=False`: quote, backslash and the named control escapes, other
control characters as `\u00XX`, everything else verbatim. -/
def jsonEscapeChar (c : Char) : List Char :=
  if c = '"' then ['\\', '"']
  else if c = '\\' then ['\\', '\\']
  else if c = '\n' then ['\\', 'n']
  else if c = '\r' then ['\\', 'r']
  else if c = '\t' then ['\\', 't']
  else if c = '\x08' then ['\\', 'b']
  else if c = '\x0c' then ['\\', 'f']
  else if c.toNat < 0x20 then
    '\\' :: 'u' :: '0' :: '0' :: [Nat.digitChar (c.toNat / 16), Nat.digitChar (c.toNat % 16)]
  else [c]

/-- A JSON string literal: quoted, escaped body. -/
def jsonQuote (s : String) : List Char :=
  '"' :: (s.data.flatMap jsonEscapeChar ++ ['"'])

/-- A scalar leaf in JSON. -/
def scalarJson : Scalar → List Char
  | .str s => jsonQuote s
  | .int n => intChars n
  | .bool true => ['t', 'r', 'u', 'e']
  | .bool false => ['f', 'a', 'l', 's', 'e']
  | .null => ['n', 'u', 'l', 'l']

/-- The indentation of `d` nesting levels in pretty mode. -/
def jsonPad (d : Nat) : List Char := List.replicate (2 * d) ' '

/-- What follows an opening bracket: nothing in compact mode, a newline and
one deeper indent in pretty mode at depth `d`. -/
def jsonOpen : Option Nat → List Char
  | none => []
  | some d => '\n' :: jsonPad (d + 1)

/-- The separator between items: `", "` in compact mode, `","` plus newline
and indent in pretty mode. -/
def jsonSep : Option Nat → List Char
  | none => [',', ' ']
  | some d => ',' :: '\n' :: jsonPad (d + 1)

/-- What precedes a closing bracket: nothing in compact mode, a newline and
the container's own indent in pretty mode. -/
def jsonClose : Option Nat → List Char
  | none => []
  | some d => '\n' :: jsonPad d

/-- The mode of a nested container: compact stays compact, pretty descends
one level. -/
def modeDown : Option Nat → Option Nat
  | none => none
  | some d => some (d + 1)

mutual
/-- `json.dumps` on a record value, in compact (`none`) or pretty
(`some depth`) mode. -/
def jsonVal : Record → Option Nat → List Char
  | .scalar v, _ => scalarJson v
  | .dict [], _ => ['{', '}']
  | .dict (e :: es), mode =>
    '{' :: (jsonOpen mode ++ (jsonMembers (e :: es) mode ++ (jsonClose mode ++ ['}'])))
  | .list [], _ => ['[', ']']
  | .list (x :: xs), mode =>
    '[' :: (jsonOpen mode ++ (jsonElems (x :: xs) mode ++ (jsonClose mode ++ [']'])))

/-- The members of a non-empty JSON object, `"key": value` joined by the
mode's separator. -/
def jsonMembers : List (String × Record) → Option Nat → List Char
  | [], _ => []
  | [(k, v)], mode => jsonQuote k ++ (':' :: ' ' :: jsonVal v (modeDown mode))
  | (k, v) :: e :: rest, mode =>
    jsonQuote k ++ (':' :: ' ' :: jsonVal v (modeDown mode)) ++
    (jsonSep mode ++ jsonMembers (e :: rest) mode)

/-- The elements of a non-empty JSON array, joined by the mode's separator. -/
def jsonElems : List Record → Option Nat → List Char
  | [], _ => []
  | [x], mode => jsonVal x (modeDown mode)
  | x :: y :: rest, mode =>
    jsonVal x (modeDown mode) ++ (jsonSep mode ++ jsonElems (y :: rest) mode)
end

/-- The json branch of `main` without `--pretty`: `json.dumps(data)`. -/
def json_dumps (t : Record) : String := String.mk (jsonVal t none)

/-- The json branch of `main` with `--pretty`: `json.dumps(data, indent=2)`. -/
def json_dumps_pretty (t : Record) : String := String.mk (jsonVal t (some 0))

/-! ## A JSON parser

Modelled from the spec: §8's round-trip property reads the renderer's output
back with `parse` (`json.loads` in the source ecosystem, which is outside
this repository).  The model below parses the JSON grammar restricted to the
scalar kinds of the record model (integers rather than arbitrary JSON
numbers), builds every object as a Python dict (later duplicate keys
overwrite the value at the first occurrence's position), and is total via a
fuel argument that `json_loads` seeds beyond the input length. -/

/-- The whitespace `json.loads` skips between tokens. -/
def isJsonWs (c : Char) : Bool := c = ' ' || c = '\t' || c = '\n' || c = '\r'

def jskip : List Char → List Char
  | c :: cs => if isJsonWs c then jskip cs else c :: cs
  | [] => []

/-- The longest digit run at the head of the input. -/
def digitRun : List Char → List Char × List Char
  | c :: cs =>
    if c.isDigit then
      let (ds, r) := digitRun cs
      (c :: ds, r)
    else ([], c :: cs)
  | [] => ([], [])

/-- The number a digit run denotes. -/
def digitsVal (ds : List Char) : Nat :=
  ds.foldl (fun a c => a * 10 + (c.toNat - 48)) 0

/-- An integer token: an optional minus sign and a non-empty digit run. -/
def parseIntTok : List Char → Option (Int × List Char)
  | '-' :: cs =>
    match digitRun cs with
    | ([], _) => none
    | (ds, r) => some (-(digitsVal ds : Int), r)
  | cs =>
    match digitRun cs with
    | ([], _) => none
    | (ds, r) => some ((digitsVal ds : Int), r)

/-- The value of one hexadecimal digit. -/
def hexNibble (c : Char) : Option Nat :=
  if '0' ≤ c ∧ c ≤ '9' then some (c.toNat - 48)
  else if 'a' ≤ c ∧ c ≤ 'f' then some (c.toNat - 87)
  else if 'A' ≤ c ∧ c ≤ 'F' then some (c.toNat - 55)
  else none

/-- One named escape of a JSON string (the three self-escapes, then the
letter escapes). -/
def jsonUnescape (e : Char) : Option Char :=
  if e = '"' ∨ e = '\\' ∨ e = '/' then some e
  else if e = 'n' then some '\n'
  else if e = 't' then some '\t'
  else if e = 'r' then some '\r'
  else if e = 'b' then some '\x08'
  else if e = 'f' then some '\x0c'
  else none

/-- The body of a JSON string after the opening quote, with `acc` the
already-read characters in reverse. -/
def strBody (acc : List Char) : List Char → Option (String × List Char)
  | '"' :: rest => some (String.mk acc.reverse, rest)
  | '\\' :: 'u' :: a :: b :: c :: d :: rest =>
    match hexNibble a, hexNibble b, hexNibble c, hexNibble d with
    | some x, some y, some z, some w =>
      strBody (Char.ofNat (((x * 16 + y) * 16 + z) * 16 + w) :: acc) rest
    | _, _, _, _ => none
  | '\\' :: e :: rest =>
    match jsonUnescape e with
    | some ch => strBody (ch :: acc) rest
    | none => none
  | c :: rest => strBody (c :: acc) rest
  | [] => none

mutual
/-- One JSON value (fuel-bounded recursion). -/
def parseVal : Nat → List Char → Option (Record × List Char)
  | 0, _ => none
  | fuel + 1, cs =>
    match jskip cs with
    | 'n' :: 'u' :: 'l' :: 'l' :: r => some (.scalar .null, r)
    | 't' :: 'r' :: 'u' :: 'e' :: r => some (.scalar (.bool true), r)
    | 'f' :: 'a' :: 'l' :: 's' :: 'e' :: r => some (.scalar (.bool false), r)
    | '"' :: r =>
      match strBody [] r with
      | some (s, r1) => some (.scalar (.str s), r1)
      | none => none
    | '{' :: r =>
      match jskip r with
      | '}' :: r1 => some (.dict [], r1)
      | r1 =>
        match parseMembers fuel r1 with
        | some (ms, r2) => some (.dict (pyDict ms), r2)
        | none => none
    | '[' :: r =>
      match jskip r with
      | ']' :: r1 => some (.list [], r1)
      | r1 =>
        match parseElems fuel r1 with
        | some (xs, r2) => some (.list xs, r2)
        | none => none
    | c :: r =>
      if c = '-' ∨ c.isDigit then
        match parseIntTok (c :: r) with
        | some (n, r1) => some (.scalar (.int n), r1)
        | none => none
      else none
    | [] => none

/-- One or more `"key": value` members, comma-separated, up to the closing
brace (the empty object is handled in `parseVal`). -/
def parseMembers : Nat → List Char → Option (List (String × Record) × List Char)
  | 0, _ => none
  | fuel + 1, cs =>
    match jskip cs with
    | '"' :: r =>
      match strBody [] r with
      | none => none
      | some (k, r1) =>
        match jskip r1 with
        | ':' :: r2 =>
          match parseVal fuel r2 with
          | none => none
          | some (v, r3) =>
            match jskip r3 with
            | ',' :: r4 =>
              match parseMembers fuel r4 with
              | some (ms, r5) => some ((k, v) :: ms, r5)
              | none => none
            | '}' :: r4 => some ([(k, v)], r4)
            | _ => none
        | _ => none
    | _ => none

/-- One or more array elements, comma-separated, up to the closing bracket
(the empty array is handled in `parseVal`). -/
def parseElems : Nat → List Char → Option (List Record × List Char)
  | 0, _ => none
  | fuel + 1, cs =>
    match parseVal fuel cs with
    | none => none
    | some (v, r) =>
      match jskip r with
      | ',' :: r1 =>
        match parseElems fuel r1 with
        | some (xs, r2) => some (v :: xs, r2)
        | none => none
      | ']' :: r1 => some ([v], r1)
      | _ => none
end

/-- Parse a complete JSON document: one value, then only whitespace. -/
def json_loads (s : String) : Option Record :=
  match parseVal (s.data.length + 1) s.data with
  | some (t, r) => if jskip r = [] then some t else none
  | none => none

/-! ## Well-formed record trees -/

/-- No string occurring twice in the list. -/
def nodupKeysB : List String → Bool
  | [] => true
  | k :: rest => !(rest.contains k) && nodupKeysB rest

mutual
/-- Well-formedness of a record tree: every dict has pairwise distinct keys
(the data model's invariant). -/
def wfRec : Record → Bool
  | .scalar _ => true
  | .dict fs => nodupKeysB (fs.map Prod.fst) && wfFields fs
  | .list its => wfItems its

def wfFields : List (String × Record) → Bool
  | [] => true
  | (_, v) :: rest => wfRec v && wfFields rest

def wfItems : List Record → Bool
  | [] => true
  | x :: rest => wfRec x && wfItems rest
end

/-! ## Observation helpers for the claims -/

/-- First-match association lookup (how a Python dict is read). -/
def lookupA {α : Type} (k : String) : List (String × α) → Option α
  | [] => none
  | (k1, v) :: rest => if k1 = k then some v else lookupA k rest

/-- The value of the last pair carrying key `k`. -/
def lastVal {α : Type} (k : String) : List (String × α) → Option α
  | [] => none
  | (k1, v) :: rest =>
    match lastVal k rest with
    | some w => some w
    | none => if k1 = k then some v else none

/-- Each key at its first occurrence, in order. -/
def firstOcc (ks : List String) : List String :=
  ks.foldl (fun acc k => if k ∈ acc then acc else acc ++ [k]) []

/-- The flattener's own action on a single record at a path: a scalar emits
one pair, a dict flattens with `flatten_dict`, a list with `flatten_list`. -/
def itemFlatten : Record → String → List (String × String)
  | .scalar sv, p => [(p, sv.str_py)]
  | .dict fs, p => flatten_dict fs p
  | .list its, p => flatten_list its p 0

/-- The in-order concatenation of the items' flattenings under the indexed
prefixes `base[i]`, `base[i+1]`, ... -/
def flattenEach : List Record → String → Nat → List (String × String)
  | [], _, _ => []
  | x :: rest, base, i => itemFlatten x (indexKey base i) ++ flattenEach rest base (i + 1)

/-- A record is scalar- or dict-shaped (the list item shapes the flattener
recurses into or emits pointwise). -/
def flatItem : Record → Prop
  | .list _ => False
  | _ => True

/-- The §8 flatten-count report shape: `cpu` a 3-field map of scalars,
`memory` a map holding a 2-item list of 2-field maps of scalars. -/
def report1 (v1 v2 v3 c1 s1 c2 s2 : Scalar) : List (String × Record) :=
  [("cpu", .dict [("name", .scalar v1), ("cores", .scalar v2), ("architecture", .scalar v3)]),
   ("memory", .dict [("banks", .list
      [.dict [("capacity", .scalar c1), ("speed", .scalar s1)],
       .dict [("capacity", .scalar c2), ("speed", .scalar s2)]])])]

/-! ## The YAML renderer

Modelled from the spec: the yaml branch of `main` calls the external
library function `yaml.dump(data, allow_unicode=True)`, which is not part
of this repository.  Following the spec's description — a standard
block-style YAML serialization of the report tree that keeps non-ASCII
scalar content verbatim — we model it as a block emitter: map entries as
`key: value` lines with nested maps indented two further spaces, list
items as `- ` lines at their container's indent with a map item's first
entry on the dash line, empty containers inline, and scalars in the YAML
core-schema forms (`null`, `true`, `false`, decimal integers, strings
plain unless a plain form would be ambiguous, then double-quoted). -/

/-- A plain (unquoted) YAML scalar would be misread for these strings:
empty, a keyword or Python literal name, leading/trailing layout or
indicator characters, an embedded syntax character, or a leading digit
(so nothing number-like ever appears plain). -/
def yamlNeedsQuote (s : String) : Bool :=
  s = "" || s = "null" || s = "true" || s = "false" ||
  s = "None" || s = "True" || s = "False" ||
  s.startsWith " " || s.startsWith "-" || s.startsWith "[" || s.startsWith "]" ||
  s.endsWith " " ||
  s.data.any (fun c =>
    c = ':' || c = '#' || c = '\n' || c = '\r' || c = '\t' || c = '"' || c = '\\') ||
  (match s.data with
   | [] => true
   | c :: _ => c.isDigit)

/-- A double-quoted YAML scalar; on the characters we escape, YAML's
double-quote escapes agree with JSON's, so the same escaper serves. -/
def yamlQuote (s : String) : String := String.mk (jsonQuote s)

/-- A scalar leaf in YAML: core-schema forms for null, booleans and
integers; strings plain, or double-quoted when ambiguous. -/
def yamlScalar : Scalar → String
  | .str s => if yamlNeedsQuote s then yamlQuote s else s
  | .int n => intStr n
  | .bool true => "true"
  | .bool false => "false"
  | .null => "null"

mutual
/-- A map entry's text after its indent prefix: a scalar value sits inline
after `: `; a nonempty map value goes on following lines two spaces deeper;
a nonempty list value goes on following lines with its dashes at the key's
own indent; empty containers are the inline forms. -/
def yamlEntry : String → Record → Nat → String
  | k, .scalar sv, _ => k ++ ": " ++ yamlScalar sv ++ "\n"
  | k, .dict [], _ => k ++ ": \x7b\x7d\n"
  | k, .dict (p :: ps), i => k ++ ":\n" ++ yamlMap (p :: ps) (i + 2)
  | k, .list [], _ => k ++ ": []\n"
  | k, .list (x :: xs), i => k ++ ":\n" ++ yamlList (x :: xs) i

/-- A block mapping at indent `i`: one entry group per field, each prefixed
by `i` spaces. -/
def yamlMap : List (String × Record) → Nat → String
  | [], _ => ""
  | (k, v) :: rest, i => spaces i ++ yamlEntry k v i ++ yamlMap rest i

/-- A list item's text after its `- ` prefix, `i` being the column where
the body starts: a map item puts its first entry on the dash line and the
remaining entries at column `i`; a nested list item hangs its own first
item off the dash likewise. -/
def yamlItemBody : Record → Nat → String
  | .scalar sv, _ => yamlScalar sv ++ "\n"
  | .dict [], _ => "\x7b\x7d\n"
  | .dict ((k, v) :: ps), i => yamlEntry k v i ++ yamlMap ps i
  | .list [], _ => "[]\n"
  | .list (y :: ys), i => "- " ++ yamlItemBody y (i + 2) ++ yamlList ys i

/-- A block sequence at indent `i`: one `- ` item group per element. -/
def yamlList : List Record → Nat → String
  | [], _ => ""
  | x :: xs, i => spaces i ++ "- " ++ yamlItemBody x (i + 2) ++ yamlList xs i
end

/-- `yaml.dump` on the report tree (the program always passes a top-level
map; the other cases render the value as its own document body). -/
def yaml_dump : Record → String
  | .dict fs => yamlMap fs 0
  | .list xs => yamlList xs 0
  | .scalar sv => yamlScalar sv ++ "\n"

/-! ## Agreement up to sensitive fields (for claim C2) -/

/-- Two system probes agreeing on everything except the serial number. -/
def SystemRaw.agreeNS (r1 r2 : SystemRaw) : Prop :=
  r1.hostname = r2.hostname ∧ r1.osName = r2.osName ∧ r1.osVersion = r2.osVersion ∧
  r1.osArchitecture = r2.osArchitecture ∧ r1.buildNumber = r2.buildNumber ∧
  r1.installDate = r2.installDate ∧ r1.lastBoot = r2.lastBoot ∧
  r1.manufacturer = r2.manufacturer

/-- Two disk probes agreeing on everything except the serial number. -/
def DiskRaw.agreeNS (d1 d2 : DiskRaw) : Prop :=
  d1.name = d2.name ∧ d1.size = d2.size ∧ d1.interfaceType = d2.interfaceType ∧
  d1.manufacturer = d2.manufacturer ∧ d1.model = d2.model ∧
  d1.partitions = d2.partitions ∧ d1.status = d2.status

/-- Two baseboard probes agreeing on everything except the serial number. -/
def BoardRaw.agreeNS (b1 b2 : BoardRaw) : Prop :=
  b1.manufacturer = b2.manufacturer ∧ b1.product = b2.product ∧ b1.version = b2.version

/-- Two BIOS probes agreeing on everything except the serial number. -/
def BiosRaw.agreeNS (b1 b2 : BiosRaw) : Prop :=
  b1.manufacturer = b2.manufacturer ∧ b1.version = b2.version ∧
  b1.releaseDate = b2.releaseDate

/-- Two full raw snapshots differing only in sensitive (serial) values. -/
def AllRaw.agreeNS (h1 h2 : AllRaw) : Prop :=
  h1.system.agreeNS h2.system ∧ h1.cpu = h2.cpu ∧ h1.memory = h2.memory ∧
  List.Forall₂ DiskRaw.agreeNS h1.disks h2.disks ∧ h1.gpus = h2.gpus ∧
  h1.board.agreeNS h2.board ∧ h1.bios.agreeNS h2.bios

/-! ## Sample data for the concrete witness instances -/

def sampleSystem : SystemRaw :=
  ⟨.str "host", .str "win", .str "10", .str "x64", .str "19045",
   .str "20200101", .str "20240101", .str "ms", .str "OS-SN-1"⟩

def sampleCpu : CpuRaw :=
  ⟨" cpu0 ", .int 4, .int 8, .int 64, .str "intel", .int 3000, .str "s1", .str "OK", .bool true⟩

def sampleBank : BankRaw := ⟨.int 8, .int 3200, .str "k", "pn ", .str "slot0"⟩

def sampleDisk : DiskRaw :=
  ⟨.str "d0", .int 100, .str "SCSI", .str "m", .str "mod", .int 3, .str "OK", "DISK-SN-1"⟩

def sampleGpu : GpuRaw := ⟨"gpu0", .null, .str "v1", .str "p", .int 2, .int 5, .str "OK"⟩

def sampleBoard : BoardRaw := ⟨.str "asus", .str "prime", .str "1", "B-SN-1"⟩

def sampleBios : BiosRaw := ⟨.str "ami", .str "2", .str "20200101", "BI-SN-1"⟩

def sampleHw : AllRaw :=
  ⟨sampleSystem, sampleCpu, ⟨.int 16, [sampleBank]⟩, [sampleDisk], [sampleGpu],
   sampleBoard, sampleBios⟩

/-- `sampleHw` with every serial number replaced. -/
def sampleHw2 : AllRaw :=
  ⟨{sampleSystem with serialNumber := .str "OS-SN-2"}, sampleCpu, ⟨.int 16, [sampleBank]⟩,
   [{sampleDisk with serialNumber := "DISK-SN-2"}], [sampleGpu],
   {sampleBoard with serialNumber := "B-SN-2"}, {sampleBios with serialNumber := "BI-SN-2"}⟩

/-- Flags: no subsystem selected (so all show), serials excluded. -/
def sampleArgs : Args := ⟨false, false, false, false, false, false, false, true, false⟩

/-- A well-formed record tree touching every constructor, for the JSON
round-trip witness. -/
def sampleTree : Record :=
  .dict [("a", .scalar (.int (-3))),
         ("b", .list [.scalar .null, .scalar (.str "x\"y\n"), .dict []]),
         ("c", .dict [("d", .scalar (.bool true)), ("e", .scalar (.int 40))]),
         ("d", .list [])]

/-- A character list that cannot extend a digit run: empty, or headed by a
non-digit. -/
def digitBoundary : List Char → Bool
  | [] => true
  | c :: _ => !c.isDigit

/-- A remainder that cannot extend a rendered JSON value: empty, or starting
with a separator, closer, or newline. -/
def jsonBoundary : List Char → Bool
  | [] => true
  | c :: _ => c = ',' || c = '}' || c = ']' || c = '\n'

/-! # General lemmas -/

theorem str_append_right_inj (s : String) {a b : String} (h : s ++ a = s ++ b) : a = b := by
  have hd := congrArg String.data h
  simp only [String.data_append] at hd
  exact String.ext (List.append_cancel_left hd)

theorem joinKey_inj (p : String) {a b : String} (h : joinKey p a = joinKey p b) : a = b := by
  by_cases hp : p = ""
  · simpa [joinKey, hp] using h
  · rw [joinKey, if_neg hp, joinKey, if_neg hp] at h
    exact str_append_right_inj (p ++ ".") h

theorem joinKey_injective (p : String) : Function.Injective (joinKey p) :=
  fun _ _ h => joinKey_inj p h

theorem indexKey_ne_empty (base : String) (i : Nat) : indexKey base i ≠ "" := by
  intro h
  have hlen := congrArg String.length h
  rw [indexKey, String.length_append, String.length_append, String.length_append] at hlen
  have h1 : ("[" : String).length = 1 := rfl
  have h2 : ("]" : String).length = 1 := rfl
  have h0 : ("" : String).length = 0 := rfl
  rw [h1, h2, h0] at hlen
  omega

theorem joinKey_of_ne (p : String) (hp : p ≠ "") (k : String) :
    joinKey p k = p ++ "." ++ k := by
  rw [joinKey, if_neg hp]


/-! ## Decimal digit strings -/

theorem digitChar_isDigit {k : Nat} (h : k < 10) : (Nat.digitChar k).isDigit = true := by
  interval_cases k <;> decide

theorem digitChar_val {k : Nat} (h : k < 10) : (Nat.digitChar k).toNat - 48 = k := by
  interval_cases k <;> decide

theorem natChars_digits (n : Nat) : ∀ c ∈ natChars n, c.isDigit = true := by
  induction n using Nat.strong_induction_on with
  | _ n ih =>
    rw [natChars]
    by_cases h : n < 10
    · rw [if_pos h]
      intro c hc
      rw [List.mem_singleton] at hc
      exact hc ▸ digitChar_isDigit h
    · rw [if_neg h]
      intro c hc
      rcases List.mem_append.mp hc with hc | hc
      · exact ih (n / 10) (by omega) c hc
      · rw [List.mem_singleton] at hc
        exact hc ▸ digitChar_isDigit (Nat.mod_lt _ (by omega))

theorem natChars_ne_nil (n : Nat) : natChars n ≠ [] := by
  rw [natChars]
  by_cases h : n < 10 <;> simp [h]

theorem digitsVal_concat (ds : List Char) (c : Char) :
    digitsVal (ds ++ [c]) = digitsVal ds * 10 + (c.toNat - 48) := by
  rw [digitsVal, digitsVal, List.foldl_append, List.foldl_cons, List.foldl_nil]

theorem digitsVal_natChars (n : Nat) : digitsVal (natChars n) = n := by
  induction n using Nat.strong_induction_on with
  | _ n ih =>
    rw [natChars]
    by_cases h : n < 10
    · rw [if_pos h]
      show 0 * 10 + ((Nat.digitChar n).toNat - 48) = n
      have := digitChar_val h
      omega
    · rw [if_neg h, digitsVal_concat, ih (n / 10) (by omega),
          digitChar_val (Nat.mod_lt _ (by omega))]
      omega

theorem natChars_inj {i j : Nat} (h : natChars i = natChars j) : i = j := by
  have := digitsVal_natChars i
  rw [h, digitsVal_natChars] at this
  omega

theorem digits_boundary_cancel :
    ∀ {d1 d2 r1 r2 : List Char}, (∀ c ∈ d1, c.isDigit = true) →
      (∀ c ∈ d2, c.isDigit = true) → digitBoundary r1 = true → digitBoundary r2 = true →
      d1 ++ r1 = d2 ++ r2 → d1 = d2 ∧ r1 = r2 := by
  intro d1
  induction d1 with
  | nil =>
    intro d2 r1 r2 _ h2 b1 _ h
    cases d2 with
    | nil => exact ⟨rfl, h⟩
    | cons c d2 =>
      rw [List.nil_append] at h
      subst h
      have hc := h2 c (by simp)
      simp [digitBoundary, hc] at b1
  | cons c d1 ih =>
    intro d2 r1 r2 h1 h2 b1 b2 h
    cases d2 with
    | nil =>
      rw [List.nil_append] at h
      rw [← h] at b2
      have hc := h1 c (by simp)
      simp [digitBoundary, hc] at b2
    | cons e d2 =>
      rw [List.cons_append, List.cons_append, List.cons.injEq] at h
      obtain ⟨rfl, htail⟩ := h
      obtain ⟨hd, hr⟩ := ih (fun x hx => h1 x (by simp [hx]))
        (fun x hx => h2 x (by simp [hx])) b1 b2 htail
      exact ⟨by rw [hd], hr⟩

/-! ## Lemmas about the Python dict model -/

theorem pyIns_keys {α : Type} (d : List (String × α)) (kv : String × α) :
    (pyIns d kv).map Prod.fst =
      if kv.1 ∈ d.map Prod.fst then d.map Prod.fst else d.map Prod.fst ++ [kv.1] := by
  by_cases h : kv.1 ∈ d.map Prod.fst
  · rw [pyIns, if_pos (by simpa using h), if_pos h, List.map_map]
    apply List.map_congr_left
    intro e _
    by_cases he : e.1 = kv.1 <;> simp [he]
  · rw [pyIns, if_neg (by simpa using h), if_neg h]
    simp

theorem pyIns_keys_nodup {α : Type} {d : List (String × α)} {kv : String × α}
    (h : (d.map Prod.fst).Nodup) : ((pyIns d kv).map Prod.fst).Nodup := by
  rw [pyIns_keys]
  by_cases hm : kv.1 ∈ d.map Prod.fst
  · rwa [if_pos hm]
  · rw [if_neg hm]
    simp [List.nodup_append, h, hm]

theorem pyDict_keys_nodup {α : Type} (l : List (String × α)) :
    ((pyDict l).map Prod.fst).Nodup := by
  suffices H : ∀ acc : List (String × α), (acc.map Prod.fst).Nodup →
      ((l.foldl pyIns acc).map Prod.fst).Nodup from H [] (by simp)
  induction l with
  | nil => intro acc hacc; simpa using hacc
  | cons kv l ih => intro acc hacc; exact ih _ (pyIns_keys_nodup hacc)

theorem pyIns_of_not_mem {α : Type} (d : List (String × α)) (kv : String × α)
    (h : kv.1 ∉ d.map Prod.fst) : pyIns d kv = d ++ [kv] := by
  rw [pyIns, if_neg (by simpa using h)]

theorem foldl_pyIns_eq_append {α : Type} (l : List (String × α)) :
    ∀ acc : List (String × α), (((acc ++ l).map Prod.fst)).Nodup →
      l.foldl pyIns acc = acc ++ l := by
  induction l with
  | nil => intro acc _; simp
  | cons kv l ih =>
    intro acc h
    have hnm : kv.1 ∉ acc.map Prod.fst := by
      simp only [List.map_append, List.nodup_append] at h
      intro hmem
      exact h.2.2 hmem (by simp)
    rw [List.foldl_cons, pyIns_of_not_mem acc kv hnm, ih (acc ++ [kv]) (by simpa using h)]
    simp

theorem pyDict_eq_self {α : Type} {l : List (String × α)}
    (h : (l.map Prod.fst).Nodup) : pyDict l = l :=
  foldl_pyIns_eq_append l [] (by simpa using h)

/-! ## Lemmas about the flattener -/

theorem flatten_items_append (xs ys : List (String × Record)) (p : String) :
    flatten_items (xs ++ ys) p = flatten_items xs p ++ flatten_items ys p := by
  induction xs with
  | nil => simp [flatten_items]
  | cons e xs ih =>
    obtain ⟨k, v⟩ := e
    cases v <;> simp only [List.cons_append, flatten_items, ih, List.append_assoc]


/-! ## Path-shape lemmas for the flattener -/

theorem append_left_injective (s : String) : Function.Injective (fun t => s ++ t) :=
  fun _ _ h => str_append_right_inj s h

theorem indexKey_data (base : String) (i : Nat) :
    (indexKey base i).data = base.data ++ ('[' :: (natChars i ++ [']'])) := by
  have h1 : ("[" : String).data = ['['] := rfl
  have h2 : ("]" : String).data = [']'] := rfl
  rw [indexKey, String.data_append, String.data_append, String.data_append, h1, h2]
  simp [List.append_assoc]

theorem indexKey_ext_inj {base : String} {i j : Nat} {x y : String}
    (h : indexKey base i ++ x = indexKey base j ++ y) : i = j ∧ x = y := by
  have hd := congrArg String.data h
  rw [String.data_append, String.data_append, indexKey_data, indexKey_data,
      List.append_assoc, List.append_assoc] at hd
  have hd2 := List.append_cancel_left hd
  rw [List.cons_append, List.cons_append, List.cons.injEq] at hd2
  have hd3 := hd2.2
  rw [List.append_assoc, List.append_assoc] at hd3
  have hb : digitBoundary ([']'] ++ x.data) = true := by simp [digitBoundary]
  have hb2 : digitBoundary ([']'] ++ y.data) = true := by simp [digitBoundary]
  obtain ⟨hij, hxy⟩ := digits_boundary_cancel (natChars_digits i) (natChars_digits j) hb hb2 hd3
  refine ⟨natChars_inj hij, ?_⟩
  rw [List.cons_append, List.cons_append, List.cons.injEq] at hxy
  exact String.ext hxy.2

theorem joinKey_ne_head (q a b x : String) {ca cb : Char} {la lb : List Char}
    (ha : a.data = ca :: la) (hb : b.data = cb :: lb) (hne : ca ≠ cb) :
    joinKey q a ≠ joinKey q b ++ x := by
  have key : a ≠ b ++ x := by
    intro h
    have hd := congrArg String.data h
    rw [String.data_append, ha, hb, List.cons_append, List.cons.injEq] at hd
    exact hne hd.1
  intro h
  by_cases hq : q = ""
  · rw [joinKey, if_pos hq, joinKey, if_pos hq] at h
    exact key h
  · rw [joinKey, if_neg hq, joinKey, if_neg hq, String.append_assoc (q ++ ".")] at h
    exact key (str_append_right_inj _ h)

theorem flatten_scalar_fields (kvs : List (String × Scalar)) (p : String) :
    flatten_items (kvs.map (fun kv => (kv.1, Record.scalar kv.2))) p =
      kvs.map (fun kv => (joinKey p kv.1, kv.2.str_py)) := by
  induction kvs with
  | nil => simp [flatten_items]
  | cons kv rest ih =>
    obtain ⟨k, v⟩ := kv
    simp [flatten_items, ih]

/-! ## The memory banks, flattened -/

theorem bank_info_true (b : BankRaw) : bank_info b true =
    Record.dict [("capacity", .scalar b.capacity), ("speed", .scalar b.speed)] := by
  simp [bank_info]

theorem bank_info_false (b : BankRaw) : bank_info b false =
    Record.dict [("capacity", .scalar b.capacity), ("speed", .scalar b.speed),
      ("manufacturer", .scalar b.manufacturer),
      ("part_number", .scalar (.str (pyStrip b.partNumber))),
      ("device_locator", .scalar b.deviceLocator)] := by
  simp [bank_info]

theorem bank_items_true (b : BankRaw) (ik : String) :
    flatten_items [("capacity", Record.scalar b.capacity),
                   ("speed", Record.scalar b.speed)] ik =
      [(joinKey ik "capacity", b.capacity.str_py), (joinKey ik "speed", b.speed.str_py)] :=
  flatten_scalar_fields [("capacity", b.capacity), ("speed", b.speed)] ik

theorem bank_items_false (b : BankRaw) (ik : String) :
    flatten_items [("capacity", Record.scalar b.capacity),
                   ("speed", Record.scalar b.speed),
                   ("manufacturer", Record.scalar b.manufacturer),
                   ("part_number", Record.scalar (.str (pyStrip b.partNumber))),
                   ("device_locator", Record.scalar b.deviceLocator)] ik =
      [(joinKey ik "capacity", b.capacity.str_py), (joinKey ik "speed", b.speed.str_py),
       (joinKey ik "manufacturer", b.manufacturer.str_py),
       (joinKey ik "part_number", (Scalar.str (pyStrip b.partNumber)).str_py),
       (joinKey ik "device_locator", b.deviceLocator.str_py)] :=
  flatten_scalar_fields [("capacity", b.capacity), ("speed", b.speed),
    ("manufacturer", b.manufacturer), ("part_number", .str (pyStrip b.partNumber)),
    ("device_locator", b.deviceLocator)] ik

theorem bank_keys_nodup_true (b : BankRaw) (ik : String) :
    (([(joinKey ik "capacity", b.capacity.str_py),
       (joinKey ik "speed", b.speed.str_py)]).map Prod.fst).Nodup := by
  have he : ([(joinKey ik "capacity", b.capacity.str_py),
      (joinKey ik "speed", b.speed.str_py)]).map Prod.fst =
      List.map (joinKey ik) ["capacity", "speed"] := rfl
  rw [he]
  exact List.Nodup.map (joinKey_injective ik) (by decide)

theorem bank_keys_nodup_false (b : BankRaw) (ik : String) :
    (([(joinKey ik "capacity", b.capacity.str_py), (joinKey ik "speed", b.speed.str_py),
       (joinKey ik "manufacturer", b.manufacturer.str_py),
       (joinKey ik "part_number", (Scalar.str (pyStrip b.partNumber)).str_py),
       (joinKey ik "device_locator", b.deviceLocator.str_py)]).map Prod.fst).Nodup := by
  have he : ([(joinKey ik "capacity", b.capacity.str_py), (joinKey ik "speed", b.speed.str_py),
      (joinKey ik "manufacturer", b.manufacturer.str_py),
      (joinKey ik "part_number", (Scalar.str (pyStrip b.partNumber)).str_py),
      (joinKey ik "device_locator", b.deviceLocator.str_py)]).map Prod.fst =
      List.map (joinKey ik)
        ["capacity", "speed", "manufacturer", "part_number", "device_locator"] := rfl
  rw [he]
  exact List.Nodup.map (joinKey_injective ik) (by decide)

theorem banks_flat_shape (m : Bool) (bs : List BankRaw) (base : String) : ∀ i : Nat,
    (∀ s ∈ (flatten_list (bs.map (fun b => bank_info b m)) base i).map Prod.fst,
      ∃ j t, i ≤ j ∧ s = indexKey base j ++ ("." ++ t)) ∧
    ((flatten_list (bs.map (fun b => bank_info b m)) base i).map Prod.fst).Nodup := by
  induction bs with
  | nil => intro i; simp [flatten_list]
  | cons b bs ih =>
    intro i
    have hne := indexKey_ne_empty base i
    have hjk : ∀ t : String, joinKey (indexKey base i) t = indexKey base i ++ ("." ++ t) := by
      intro t
      rw [joinKey_of_ne _ hne, String.append_assoc]
    cases m
    · rw [List.map_cons, bank_info_false]
      simp only [flatten_list]
      rw [bank_items_false, pyDict_eq_self (bank_keys_nodup_false b _), List.map_append]
      constructor
      · intro s hs
        rcases List.mem_append.mp hs with hs | hs
        · simp only [List.map_cons, List.map_nil, List.mem_cons, List.mem_singleton,
                     List.not_mem_nil, or_false] at hs
          rcases hs with rfl | rfl | rfl | rfl | rfl
          · exact ⟨i, "capacity", le_refl i, hjk _⟩
          · exact ⟨i, "speed", le_refl i, hjk _⟩
          · exact ⟨i, "manufacturer", le_refl i, hjk _⟩
          · exact ⟨i, "part_number", le_refl i, hjk _⟩
          · exact ⟨i, "device_locator", le_refl i, hjk _⟩
        · obtain ⟨j, t, hij, hst⟩ := ((ih (i + 1)).1) s hs
          exact ⟨j, t, by omega, hst⟩
      · rw [List.nodup_append]
        refine ⟨bank_keys_nodup_false b _, (ih (i + 1)).2, ?_⟩
        intro s hs1 hs2
        obtain ⟨j, t, hij, hst⟩ := ((ih (i + 1)).1) s hs2
        subst hst
        simp only [List.map_cons, List.map_nil, List.mem_cons, List.mem_singleton,
                   List.not_mem_nil, or_false] at hs1
        rcases hs1 with h | h | h | h | h <;>
        · rw [hjk] at h
          obtain ⟨hij2, -⟩ := indexKey_ext_inj h.symm
          omega
    · rw [List.map_cons, bank_info_true]
      simp only [flatten_list]
      rw [bank_items_true, pyDict_eq_self (bank_keys_nodup_true b _), List.map_append]
      constructor
      · intro s hs
        rcases List.mem_append.mp hs with hs | hs
        · simp only [List.map_cons, List.map_nil, List.mem_cons, List.mem_singleton,
                     List.not_mem_nil, or_false] at hs
          rcases hs with rfl | rfl
          · exact ⟨i, "capacity", le_refl i, hjk _⟩
          · exact ⟨i, "speed", le_refl i, hjk _⟩
        · obtain ⟨j, t, hij, hst⟩ := ((ih (i + 1)).1) s hs
          exact ⟨j, t, by omega, hst⟩
      · rw [List.nodup_append]
        refine ⟨bank_keys_nodup_true b _, (ih (i + 1)).2, ?_⟩
        intro s hs1 hs2
        obtain ⟨j, t, hij, hst⟩ := ((ih (i + 1)).1) s hs2
        subst hst
        simp only [List.map_cons, List.map_nil, List.mem_cons, List.mem_singleton,
                   List.not_mem_nil, or_false] at hs1
        rcases hs1 with h | h <;>
        · rw [hjk] at h
          obtain ⟨hij2, -⟩ := indexKey_ext_inj h.symm
          omega

theorem banks_flat_sublist (bs : List BankRaw) (base : String) : ∀ i : Nat,
    ((flatten_list (bs.map (fun b => bank_info b true)) base i).map Prod.fst).Sublist
      ((flatten_list (bs.map (fun b => bank_info b false)) base i).map Prod.fst) := by
  induction bs with
  | nil => intro i; simp [flatten_list]
  | cons b bs ih =>
    intro i
    rw [List.map_cons, List.map_cons, bank_info_true, bank_info_false]
    simp only [flatten_list]
    rw [bank_items_true, bank_items_false,
        pyDict_eq_self (bank_keys_nodup_true b _),
        pyDict_eq_self (bank_keys_nodup_false b _),
        List.map_append, List.map_append]
    exact List.Sublist.append
      (List.Sublist.cons₂ _ (List.Sublist.cons₂ _ (List.nil_sublist _))) (ih (i + 1))

/-! # The claims -/

/-- C1: for a report whose top-level keys are `cpu` (a 3-field map) and
`memory` (a map holding a 2-item list of 2-field maps), `flatten_dict` with
empty root prefix yields exactly the 7 `(path, value)` pairs in depth-first
left-to-right order, and the CSV renderer emits a header row of exactly
those 7 paths followed by one data row of the 7 stringified values. -/
theorem claim1_flatten_column_count (v1 v2 v3 c1 s1 c2 s2 : Scalar) :
    flatten_dict (report1 v1 v2 v3 c1 s1 c2 s2) "" =
      [("cpu.name", v1.str_py), ("cpu.cores", v2.str_py), ("cpu.architecture", v3.str_py),
       ("memory.banks[0].capacity", c1.str_py), ("memory.banks[0].speed", s1.str_py),
       ("memory.banks[1].capacity", c2.str_py), ("memory.banks[1].speed", s2.str_py)] ∧
    (flatten_dict (report1 v1 v2 v3 c1 s1 c2 s2) "").length = 7 ∧
    renderCsv (report1 v1 v2 v3 c1 s1 c2 s2) =
      "cpu.name,cpu.cores,cpu.architecture,memory.banks[0].capacity,memory.banks[0].speed,memory.banks[1].capacity,memory.banks[1].speed\r\n"
      ++ writerow [v1.str_py, v2.str_py, v3.str_py, c1.str_py, s1.str_py, c2.str_py, s2.str_py] := by
  have hflat : flatten_dict (report1 v1 v2 v3 c1 s1 c2 s2) "" =
      [("cpu.name", v1.str_py), ("cpu.cores", v2.str_py), ("cpu.architecture", v3.str_py),
       ("memory.banks[0].capacity", c1.str_py), ("memory.banks[0].speed", s1.str_py),
       ("memory.banks[1].capacity", c2.str_py), ("memory.banks[1].speed", s2.str_py)] := by
    simp +decide [report1, flatten_dict, flatten_items, flatten_list, joinKey, indexKey,
                  pyDict, pyIns, natChars]
  refine ⟨hflat, by rw [hflat]; rfl, ?_⟩
  rw [renderCsv, hflat]
  rfl

/-- C5: the text renderer turns `{cpu: {name: "X", cores: 4}}` into exactly
`"cpu:\n  name: X\n  cores: 4\n"`, and in general a map entry emits `k:`
plus newline and recurses two spaces deeper for dict and list values, or
emits `k: ` plus the scalar text, every line carrying the literal space
indentation prefix. -/
theorem claim5_text_renderer :
    dict_to_text [("cpu", .dict [("name", .scalar (.str "X")), ("cores", .scalar (.int 4))])] 0 =
      "cpu:\n  name: X\n  cores: 4\n" ∧
    spaces 2 = "  " ∧
    (∀ (k : String) (fs rest : List (String × Record)) (i : Nat),
      dict_to_text ((k, .dict fs) :: rest) i =
        spaces i ++ k ++ ":\n" ++ dict_to_text fs (i + 2) ++ dict_to_text rest i) ∧
    (∀ (k : String) (its : List Record) (rest : List (String × Record)) (i : Nat),
      dict_to_text ((k, .list its) :: rest) i =
        spaces i ++ k ++ ":\n" ++ list_to_text its (i + 2) ++ dict_to_text rest i) ∧
    (∀ (k : String) (sv : Scalar) (rest : List (String × Record)) (i : Nat),
      dict_to_text ((k, .scalar sv) :: rest) i =
        spaces i ++ k ++ ": " ++ sv.str_py ++ "\n" ++ dict_to_text rest i) := by
  refine ⟨?_, rfl, ?_, ?_, ?_⟩
  · simp +decide [dict_to_text, Scalar.str_py, intStr, intChars, natChars, spaces]
  · intro k fs rest i; rw [dict_to_text]
  · intro k its rest i; rw [dict_to_text]
  · intro k sv rest i; rw [dict_to_text]

/-- C9: every renderer — text, JSON (both modes), YAML and the flattener
feeding CSV — is total on `Scalar(null)` by construction, and the null
leaf has one fixed textual form per format: the text renderer and the
flattener feeding CSV both print it as `None` (the same `str()` model),
the JSON renderer prints `null` in both modes, and the YAML renderer
prints `null` wherever the null occurs — as a map value, as a list item,
or as the whole document. -/
theorem claim9_null_rendering :
    Scalar.str_py .null = "None" ∧
    csvField (Scalar.str_py .null) = "None" ∧
    (∀ (k : String) (rest : List (String × Record)) (i : Nat),
      dict_to_text ((k, .scalar .null) :: rest) i =
        spaces i ++ k ++ ": " ++ "None" ++ "\n" ++ dict_to_text rest i) ∧
    (∀ (k parent : String) (rest : List (String × Record)),
      flatten_items ((k, .scalar .null) :: rest) parent =
        (joinKey parent k, "None") :: flatten_items rest parent) ∧
    json_dumps (.scalar .null) = "null" ∧
    json_dumps_pretty (.scalar .null) = "null" ∧
    yamlScalar .null = "null" ∧
    (∀ (k : String) (rest : List (String × Record)) (i : Nat),
      yamlMap ((k, .scalar .null) :: rest) i =
        spaces i ++ (k ++ ": " ++ "null" ++ "\n") ++ yamlMap rest i) ∧
    (∀ (rest : List Record) (i : Nat),
      yamlList (.scalar .null :: rest) i =
        spaces i ++ "- " ++ ("null" ++ "\n") ++ yamlList rest i) ∧
    yaml_dump (.scalar .null) = "null" ++ "\n" := by
  refine ⟨rfl, rfl, ?_, ?_, ?_, ?_, rfl, ?_, ?_, rfl⟩
  · intro k rest i; rw [dict_to_text]; rfl
  · intro k parent rest; simp [flatten_items, Scalar.str_py]
  · rw [json_dumps, jsonVal]; rfl
  · rw [json_dumps_pretty, jsonVal]; rfl
  · intro k rest i; rw [yamlMap]; rfl
  · intro rest i; rw [yamlList]; rfl

/-- C6: with `minimal=true` every sensitive (serial-number) field is
dropped no matter how `exclude_serials` is set: the minimal trees contain no
serial-number key anywhere and do not depend on the flag at all. -/
theorem claim6_minimal_drops_sensitive (sys : SystemRaw) (disks : List DiskRaw)
    (board : BoardRaw) (bios : BiosRaw) (e : Bool) :
    ("serial_number" ∉ allKeys (get_system_info sys true e) ∧
     "serial_number" ∉ allKeys (get_storage_info disks true e) ∧
     "serial_number" ∉ allKeys (get_motherboard_info board bios true e) ∧
     "bios_serial_number" ∉ allKeys (get_motherboard_info board bios true e)) ∧
    (get_system_info sys true e = get_system_info sys true true ∧
     get_storage_info disks true e = get_storage_info disks true true ∧
     get_motherboard_info board bios true e = get_motherboard_info board bios true true) := by
  have hsto : ∀ ds : List DiskRaw,
      "serial_number" ∉ allKeysI (ds.map (fun d => disk_info d true e)) := by
    intro ds
    induction ds with
    | nil => simp [allKeysI]
    | cons d ds ih =>
      simp only [List.map_cons, allKeysI]
      intro hmem
      rcases List.mem_append.mp hmem with h | h
      · revert h; simp +decide [disk_info, allKeys, allKeysF, allKeysI]
      · exact ih h
  refine And.intro ⟨?_, ?_, ?_, ?_⟩ ⟨?_, ?_, ?_⟩
  · simp +decide [get_system_info, allKeys, allKeysF, allKeysI]
  · exact hsto disks
  · simp +decide [get_motherboard_info, allKeys, allKeysF, allKeysI]
  · simp +decide [get_motherboard_info, allKeys, allKeysF, allKeysI]
  · simp [get_system_info]
  · simp [get_storage_info, disk_info]
  · simp [get_motherboard_info]


/-- C3: the selected top-level record's keys are exactly the chosen
subsystems, each once, in the canonical order (system, cpu, memory, storage,
gpu, motherboard), with a `timestamp` entry holding the provided local-time
string inserted last when timestamps are not suppressed. -/
theorem claim3_selector_completeness (a : Args) (hw : AllRaw) (now : String) :
    ((selectData a hw now).map Prod.fst =
      canonicalKeys.filter (chosenKey a) ++ (if a.no_timestamps then [] else ["timestamp"])) ∧
    ((selectData a hw now).map Prod.fst).Nodup ∧
    (a.no_timestamps = false →
      (selectData a hw now).getLast? = some ("timestamp", .scalar (.str now))) := by
  obtain ⟨c, m, s, g, mb, al, mi, ex, nt⟩ := a
  have hkeys : (selectData ⟨c, m, s, g, mb, al, mi, ex, nt⟩ hw now).map Prod.fst =
      canonicalKeys.filter (chosenKey ⟨c, m, s, g, mb, al, mi, ex, nt⟩) ++
        (if nt then [] else ["timestamp"]) := by
    cases al <;> cases c <;> cases m <;> cases s <;> cases g <;> cases mb <;>
      simp +decide [selectData, collect_all, canonicalKeys, chosenKey, showAll, apply_ite]
  refine ⟨hkeys, ?_, ?_⟩
  · rw [hkeys]
    have hfil : (canonicalKeys.filter (chosenKey ⟨c, m, s, g, mb, al, mi, ex, nt⟩)).Nodup :=
      (List.filter_sublist _).nodup (by decide)
    cases nt with
    | true => simpa using hfil
    | false =>
      rw [if_neg (by simp)]
      rw [List.nodup_append]
      refine ⟨hfil, by simp, ?_⟩
      intro k hk
      have hmem := (List.filter_sublist _).mem hk
      revert hmem
      simp +decide [canonicalKeys]
      rintro (rfl | rfl | rfl | rfl | rfl | rfl) <;> decide
  · intro hnt
    subst hnt
    rw [selectData]
    simp only [Bool.false_eq_true, if_false]
    exact List.getLast?_concat _


/-- C7: for any fixed raw input, the flattened field paths produced with
`minimal=true` form an order-preserving subsequence (hence a subset, with
the surviving keys in their original relative order) of the paths produced
with `minimal=false`, shown for the cpu and memory collectors under an
arbitrary prefix. -/
theorem claim7_minimal_monotonicity (r : CpuRaw) (mem : MemoryRaw) (p q : String) :
    ((itemFlatten (get_cpu_info r true) p).map Prod.fst).Sublist
      ((itemFlatten (get_cpu_info r false) p).map Prod.fst) ∧
    ((itemFlatten (get_memory_info mem true) q).map Prod.fst).Sublist
      ((itemFlatten (get_memory_info mem false) q).map Prod.fst) := by
  constructor
  · have ecpu_t : get_cpu_info r true = Record.dict
        [("name", .scalar (.str (pyStrip r.name))), ("cores", .scalar r.cores),
         ("threads", .scalar r.threads), ("architecture", .scalar r.architecture)] := by
      simp [get_cpu_info]
    have ecpu_f : get_cpu_info r false = Record.dict
        [("name", .scalar (.str (pyStrip r.name))), ("cores", .scalar r.cores),
         ("threads", .scalar r.threads), ("architecture", .scalar r.architecture),
         ("manufacturer", .scalar r.manufacturer), ("max_clock_speed", .scalar r.maxClockSpeed),
         ("socket", .scalar r.socket), ("status", .scalar r.status),
         ("virtualization", .scalar r.virtualization)] := by
      simp [get_cpu_info]
    have hit : flatten_items
        [("name", Record.scalar (.str (pyStrip r.name))), ("cores", Record.scalar r.cores),
         ("threads", Record.scalar r.threads),
         ("architecture", Record.scalar r.architecture)] p =
        [(joinKey p "name", (Scalar.str (pyStrip r.name)).str_py),
         (joinKey p "cores", r.cores.str_py), (joinKey p "threads", r.threads.str_py),
         (joinKey p "architecture", r.architecture.str_py)] :=
      flatten_scalar_fields [("name", .str (pyStrip r.name)), ("cores", r.cores),
        ("threads", r.threads), ("architecture", r.architecture)] p
    have hif : flatten_items
        [("name", Record.scalar (.str (pyStrip r.name))), ("cores", Record.scalar r.cores),
         ("threads", Record.scalar r.threads), ("architecture", Record.scalar r.architecture),
         ("manufacturer", Record.scalar r.manufacturer),
         ("max_clock_speed", Record.scalar r.maxClockSpeed),
         ("socket", Record.scalar r.socket), ("status", Record.scalar r.status),
         ("virtualization", Record.scalar r.virtualization)] p =
        [(joinKey p "name", (Scalar.str (pyStrip r.name)).str_py),
         (joinKey p "cores", r.cores.str_py), (joinKey p "threads", r.threads.str_py),
         (joinKey p "architecture", r.architecture.str_py),
         (joinKey p "manufacturer", r.manufacturer.str_py),
         (joinKey p "max_clock_speed", r.maxClockSpeed.str_py),
         (joinKey p "socket", r.socket.str_py), (joinKey p "status", r.status.str_py),
         (joinKey p "virtualization", r.virtualization.str_py)] :=
      flatten_scalar_fields [("name", .str (pyStrip r.name)), ("cores", r.cores),
        ("threads", r.threads), ("architecture", r.architecture),
        ("manufacturer", r.manufacturer), ("max_clock_speed", r.maxClockSpeed),
        ("socket", r.socket), ("status", r.status), ("virtualization", r.virtualization)] p
    have hn4 : (([(joinKey p "name", (Scalar.str (pyStrip r.name)).str_py),
        (joinKey p "cores", r.cores.str_py), (joinKey p "threads", r.threads.str_py),
        (joinKey p "architecture", r.architecture.str_py)]).map Prod.fst).Nodup := by
      have he : ([(joinKey p "name", (Scalar.str (pyStrip r.name)).str_py),
          (joinKey p "cores", r.cores.str_py), (joinKey p "threads", r.threads.str_py),
          (joinKey p "architecture", r.architecture.str_py)]).map Prod.fst =
          List.map (joinKey p) ["name", "cores", "threads", "architecture"] := rfl
      rw [he]
      exact List.Nodup.map (joinKey_injective p) (by decide)
    have hn9 : (([(joinKey p "name", (Scalar.str (pyStrip r.name)).str_py),
        (joinKey p "cores", r.cores.str_py), (joinKey p "threads", r.threads.str_py),
        (joinKey p "architecture", r.architecture.str_py),
        (joinKey p "manufacturer", r.manufacturer.str_py),
        (joinKey p "max_clock_speed", r.maxClockSpeed.str_py),
        (joinKey p "socket", r.socket.str_py), (joinKey p "status", r.status.str_py),
        (joinKey p "virtualization", r.virtualization.str_py)]).map Prod.fst).Nodup := by
      have he : ([(joinKey p "name", (Scalar.str (pyStrip r.name)).str_py),
          (joinKey p "cores", r.cores.str_py), (joinKey p "threads", r.threads.str_py),
          (joinKey p "architecture", r.architecture.str_py),
          (joinKey p "manufacturer", r.manufacturer.str_py),
          (joinKey p "max_clock_speed", r.maxClockSpeed.str_py),
          (joinKey p "socket", r.socket.str_py), (joinKey p "status", r.status.str_py),
          (joinKey p "virtualization", r.virtualization.str_py)]).map Prod.fst =
          List.map (joinKey p) ["name", "cores", "threads", "architecture", "manufacturer",
            "max_clock_speed", "socket", "status", "virtualization"] := rfl
      rw [he]
      exact List.Nodup.map (joinKey_injective p) (by decide)
    rw [ecpu_t, ecpu_f]
    simp only [itemFlatten]
    rw [flatten_dict, flatten_dict, hit, hif, pyDict_eq_self hn4, pyDict_eq_self hn9]
    simp only [List.map_cons, List.map_nil]
    exact List.Sublist.cons₂ _ (List.Sublist.cons₂ _ (List.Sublist.cons₂ _
      (List.Sublist.cons₂ _ (List.nil_sublist _))))
  · simp only [get_memory_info, itemFlatten]
    rw [flatten_dict, flatten_dict]
    have hitems : ∀ m : Bool, flatten_items
        [("total", Record.scalar mem.total),
         ("banks", Record.list (mem.banks.map (fun b => bank_info b m)))] q =
        (joinKey q "total", mem.total.str_py) ::
          flatten_list (mem.banks.map (fun b => bank_info b m)) (joinKey q "banks") 0 := by
      intro m
      simp [flatten_items]
    have hnodup : ∀ m : Bool, (((joinKey q "total", mem.total.str_py) ::
        flatten_list (mem.banks.map (fun b => bank_info b m)) (joinKey q "banks") 0).map
          Prod.fst).Nodup := by
      intro m
      rw [List.map_cons, List.nodup_cons]
      refine ⟨?_, (banks_flat_shape m mem.banks (joinKey q "banks") 0).2⟩
      intro hmem
      obtain ⟨j, t, -, hst⟩ := (banks_flat_shape m mem.banks (joinKey q "banks") 0).1 _ hmem
      have hx : indexKey (joinKey q "banks") j ++ ("." ++ t) =
          joinKey q "banks" ++ ("[" ++ (String.mk (natChars j) ++ ("]" ++ ("." ++ t)))) := by
        rw [indexKey]
        simp [String.append_assoc]
      rw [hx] at hst
      exact joinKey_ne_head q "total" "banks" _
        (show ("total" : String).data = ['t', 'o', 't', 'a', 'l'] from rfl)
        (show ("banks" : String).data = ['b', 'a', 'n', 'k', 's'] from rfl)
        (by decide) hst
    rw [hitems, hitems, pyDict_eq_self (hnodup true), pyDict_eq_self (hnodup false),
        List.map_cons, List.map_cons]
    exact List.Sublist.cons₂ _ (banks_flat_sublist mem.banks (joinKey q "banks") 0)


/-! ## Noninterference of sensitive fields (claim C2) -/

theorem get_system_info_ni {r1 r2 : SystemRaw} (h : r1.agreeNS r2) (m : Bool) :
    get_system_info r1 m true = get_system_info r2 m true := by
  obtain ⟨h1, h2, h3, h4, h5, h6, h7, h8⟩ := h
  simp [get_system_info, h1, h2, h3, h4, h5, h6, h7, h8]

theorem disk_info_ni {d1 d2 : DiskRaw} (h : d1.agreeNS d2) (m : Bool) :
    disk_info d1 m true = disk_info d2 m true := by
  obtain ⟨h1, h2, h3, h4, h5, h6, h7⟩ := h
  simp [disk_info, h1, h2, h3, h4, h5, h6, h7]

theorem get_storage_info_ni {l1 l2 : List DiskRaw}
    (h : List.Forall₂ DiskRaw.agreeNS l1 l2) (m : Bool) :
    get_storage_info l1 m true = get_storage_info l2 m true := by
  rw [get_storage_info, get_storage_info]
  congr 1
  induction h with
  | nil => rfl
  | cons hd _ ih => rw [List.map_cons, List.map_cons, disk_info_ni hd m, ih]

theorem get_motherboard_info_ni {b1 b2 : BoardRaw} {i1 i2 : BiosRaw}
    (hb : b1.agreeNS b2) (hi : i1.agreeNS i2) (m : Bool) :
    get_motherboard_info b1 i1 m true = get_motherboard_info b2 i2 m true := by
  obtain ⟨hb1, hb2, hb3⟩ := hb
  obtain ⟨hi1, hi2, hi3⟩ := hi
  simp [get_motherboard_info, hb1, hb2, hb3, hi1, hi2, hi3]

/-- C2: with `exclude_serials=true` the assembled report is identical for any
two raw snapshots that differ only in sensitive (serial-number) values, so
every renderer — text, JSON, YAML, or CSV, all functions of the report —
produces exactly the same output string; no sensitive value can reach any
format's output. -/
theorem claim2_sensitive_suppression (a : Args) (hw1 hw2 : AllRaw) (now : String)
    (hagree : hw1.agreeNS hw2) (hex : a.exclude_serials = true) :
    selectData a hw1 now = selectData a hw2 now ∧
    ∀ render : List (String × Record) → String,
      render (selectData a hw1 now) = render (selectData a hw2 now) := by
  obtain ⟨hsys, hcpu, hmem, hdisks, hgpus, hboard, hbios⟩ := hagree
  have hse : selectData a hw1 now = selectData a hw2 now := by
    rw [selectData, selectData, hex]
    simp [collect_all, hcpu, hmem, hgpus, get_system_info_ni hsys,
          get_storage_info_ni hdisks, get_motherboard_info_ni hboard hbios]
  exact ⟨hse, fun render => congrArg render hse⟩

/-- Concrete instance of C2: two sample snapshots differing in all four
serial numbers produce identical reports once serials are excluded. -/
theorem claim2_sensitive_suppression_witness :
    (AllRaw.agreeNS sampleHw sampleHw2 ∧ sampleArgs.exclude_serials = true) ∧
    selectData sampleArgs sampleHw "T" = selectData sampleArgs sampleHw2 "T" := by
  have hag : AllRaw.agreeNS sampleHw sampleHw2 := by
    refine ⟨⟨rfl, rfl, rfl, rfl, rfl, rfl, rfl, rfl⟩, rfl, rfl, ?_, rfl,
      ⟨rfl, rfl, rfl⟩, ⟨rfl, rfl, rfl⟩⟩
    exact List.Forall₂.cons ⟨rfl, rfl, rfl, rfl, rfl, rfl, rfl⟩ List.Forall₂.nil
  exact ⟨⟨hag, rfl⟩,
    (claim2_sensitive_suppression sampleArgs sampleHw sampleHw2 "T" hag rfl).1⟩

/-! ## Association-lookup lemmas for the Python dict model (claim C10) -/

theorem lookupA_replace_ne {α : Type} (k : String) (kv : String × α)
    (d : List (String × α)) (hk : kv.1 ≠ k) :
    lookupA k (d.map (fun e => if e.1 = kv.1 then (e.1, kv.2) else e)) = lookupA k d := by
  induction d with
  | nil => rfl
  | cons e d ih =>
    by_cases he : e.1 = kv.1
    · rw [List.map_cons, if_pos he, lookupA, lookupA,
          if_neg (by rw [he]; exact hk), if_neg (by rw [he]; exact hk), ih]
    · rw [List.map_cons, if_neg he]
      by_cases hek : e.1 = k
      · rw [lookupA, lookupA, if_pos hek, if_pos hek]
      · rw [lookupA, lookupA, if_neg hek, if_neg hek, ih]

theorem lookupA_replace_eq {α : Type} (kv : String × α) (d : List (String × α))
    (hm : kv.1 ∈ d.map Prod.fst) :
    lookupA kv.1 (d.map (fun e => if e.1 = kv.1 then (e.1, kv.2) else e)) = some kv.2 := by
  induction d with
  | nil => simp at hm
  | cons e d ih =>
    by_cases he : e.1 = kv.1
    · rw [List.map_cons, if_pos he, lookupA, if_pos he]
    · rw [List.map_cons, if_neg he, lookupA, if_neg he]
      refine ih ?_
      rcases List.mem_cons.mp hm with h | h
      · exact absurd h.symm he
      · exact h

theorem lookupA_none {α : Type} (k : String) (d : List (String × α))
    (h : k ∉ d.map Prod.fst) : lookupA k d = none := by
  induction d with
  | nil => rfl
  | cons e d ih =>
    rw [lookupA, if_neg (fun he => h (by simp [← he]))]
    exact ih (fun hm => h (by simp [hm]))

theorem lookupA_append {α : Type} (k : String) (d1 d2 : List (String × α)) :
    lookupA k (d1 ++ d2) =
      match lookupA k d1 with
      | some v => some v
      | none => lookupA k d2 := by
  induction d1 with
  | nil => rfl
  | cons e d1 ih =>
    by_cases he : e.1 = k
    · rw [List.cons_append, lookupA, if_pos he, lookupA, if_pos he]
    · rw [List.cons_append, lookupA, if_neg he, lookupA, if_neg he, ih]

theorem lookupA_pyIns {α : Type} (k : String) (d : List (String × α)) (kv : String × α) :
    lookupA k (pyIns d kv) = if kv.1 = k then some kv.2 else lookupA k d := by
  by_cases hm : kv.1 ∈ d.map Prod.fst
  · rw [pyIns, if_pos (by simpa using hm)]
    by_cases hk : kv.1 = k
    · subst hk
      rw [lookupA_replace_eq kv d hm, if_pos rfl]
    · rw [lookupA_replace_ne k kv d hk, if_neg hk]
  · rw [pyIns_of_not_mem d kv hm, lookupA_append]
    by_cases hk : kv.1 = k
    · subst hk
      rw [lookupA_none kv.1 d hm, if_pos rfl, lookupA, if_pos rfl]
    · rw [if_neg hk]
      cases h : lookupA k d
      · rw [lookupA, if_neg hk, lookupA]
      · rfl

theorem lookupA_pyDict_lastVal {α : Type} (l : List (String × α)) (k : String) :
    lookupA k (pyDict l) = lastVal k l := by
  suffices H : ∀ acc : List (String × α), lookupA k (l.foldl pyIns acc) =
      (match lastVal k l with
       | some w => some w
       | none => lookupA k acc) by
    rw [pyDict, H []]
    cases h : lastVal k l <;> rfl
  induction l with
  | nil => intro acc; rfl
  | cons kv l ih =>
    intro acc
    rw [List.foldl_cons, ih (pyIns acc kv)]
    cases hl : lastVal k l with
    | some w => rw [lastVal, hl]
    | none =>
      rw [lastVal, hl, lookupA_pyIns]
      by_cases hk : kv.1 = k
      · rw [if_pos hk, if_pos hk]
      · rw [if_neg hk, if_neg hk]

theorem pyDict_keys_firstOcc {α : Type} (l : List (String × α)) :
    (pyDict l).map Prod.fst = firstOcc (l.map Prod.fst) := by
  suffices H : ∀ acc : List (String × α), ((l.foldl pyIns acc).map Prod.fst) =
      (l.map Prod.fst).foldl (fun ks k => if k ∈ ks then ks else ks ++ [k])
        (acc.map Prod.fst) from H []
  induction l with
  | nil => intro acc; rfl
  | cons kv l ih =>
    intro acc
    rw [List.foldl_cons, ih, List.map_cons, List.foldl_cons, pyIns_keys]

/-! ## Claims C8 and C10 -/

/-- C8 counterexample: at the concrete input `{a: [[1]]}` the list branch of
the flattener does not recurse into the nested list item — it emits the
single pair `("a[0]", "[1]")` (the Python string form of the list), not the
recursive flattening `("a[0][0]", "1")` — so the claimed concatenation of
the items' flattenings fails for a nested-list item. -/
theorem claim8_counterexample :
    flatten_list [Record.list [.scalar (.int 1)]] "a" 0 ≠
      flattenEach [Record.list [.scalar (.int 1)]] "a" 0 ∧
    flatten_list [Record.list [.scalar (.int 1)]] "a" 0 = [("a[0]", "[1]")] ∧
    flattenEach [Record.list [.scalar (.int 1)]] "a" 0 = [("a[0][0]", "1")] := by
  have h1 : flatten_list [Record.list [.scalar (.int 1)]] "a" 0 = [("a[0]", "[1]")] := by
    simp +decide [flatten_list, indexKey, natChars, pyStr, pyRepr, pyReprItems,
                  Scalar.str_py, intStr, intChars]
  have h2 : flattenEach [Record.list [.scalar (.int 1)]] "a" 0 = [("a[0][0]", "1")] := by
    simp +decide [flattenEach, itemFlatten, flatten_list, indexKey, natChars,
                  Scalar.str_py, intStr, intChars]
  refine ⟨?_, h1, h2⟩
  rw [h1, h2]
  decide

/-- C8 (amended): the flattener's list branch walks the items in order at
0-based indices with prefix `base[i]`; a Map item recurses and a Scalar item
emits its single pair — both exactly the item's flattening — but a nested
List item is stringified wholesale rather than recursed.  Hence whenever
every item is a Scalar or a Map, the emitted pairs are the in-order
concatenation of the items' flattenings under the indexed prefixes. -/
theorem claim8_list_flatten_amended (its : List Record) (base : String) (i : Nat)
    (h : ∀ x ∈ its, flatItem x) :
    flatten_list its base i = flattenEach its base i := by
  induction its generalizing i with
  | nil => simp [flatten_list, flattenEach]
  | cons x rest ih =>
    have hrest : ∀ y ∈ rest, flatItem y := fun y hy => h y (by simp [hy])
    cases x with
    | scalar sv =>
      simp only [flatten_list, flattenEach, itemFlatten]
      rw [ih (i + 1) hrest]
      rfl
    | dict fs =>
      simp only [flatten_list, flattenEach, itemFlatten, flatten_dict]
      rw [ih (i + 1) hrest]
    | list inner => exact absurd (h (Record.list inner) (by simp)) (by simp [flatItem])

/-- Concrete instance of the amended C8 on a two-item list of a scalar and a
map. -/
theorem claim8_amended_witness :
    (∀ x ∈ [Record.scalar (.int 5), Record.dict [("k", .scalar .null)]], flatItem x) ∧
    flatten_list [Record.scalar (.int 5), Record.dict [("k", .scalar .null)]] "b" 0 =
      flattenEach [Record.scalar (.int 5), Record.dict [("k", .scalar .null)]] "b" 0 := by
  have h : ∀ x ∈ [Record.scalar (.int 5), Record.dict [("k", .scalar .null)]], flatItem x := by
    intro x hx
    rcases List.mem_cons.mp hx with rfl | hx
    · exact trivial
    · rcases List.mem_singleton.mp hx with rfl
      exact trivial
  exact ⟨h, claim8_list_flatten_amended _ "b" 0 h⟩

/-- C10: the flattener's output never carries the same path twice — the
final `dict(items)` merge keeps, for every colliding path, the first
occurrence's position (`firstOcc` on the keys) and the last occurrence's
value (`lastVal` under lookup) — and at the concrete collision
`{"a.b": 1, "a": {"b": 2}}` the two leaves merge silently into the single
column `("a.b", "2")`, losing the first value. -/
theorem claim10_flatten_path_merge :
    (∀ (d : List (String × Record)) (parent : String),
      ((flatten_dict d parent).map Prod.fst).Nodup) ∧
    (∀ l : List (String × String), (pyDict l).map Prod.fst = firstOcc (l.map Prod.fst)) ∧
    (∀ (l : List (String × String)) (k : String), lookupA k (pyDict l) = lastVal k l) ∧
    flatten_dict [("a.b", .scalar (.int 1)), ("a", .dict [("b", .scalar (.int 2))])] "" =
      [("a.b", "2")] := by
  refine ⟨fun d parent => pyDict_keys_nodup _, fun l => pyDict_keys_firstOcc l,
    fun l k => lookupA_pyDict_lastVal l k, ?_⟩
  simp +decide [flatten_dict, flatten_items, joinKey, pyDict, pyIns,
                Scalar.str_py, intStr, intChars, natChars]

/-! ## JSON string escaping, inverted -/

theorem hexNibble_digitChar {k : Nat} (h : k < 16) : hexNibble (Nat.digitChar k) = some k := by
  interval_cases k <;> decide

theorem strBody_escape (c : Char) (acc rest : List Char) :
    strBody acc (jsonEscapeChar c ++ rest) = strBody (c :: acc) rest := by
  rw [jsonEscapeChar]
  by_cases h1 : c = '"'
  · rw [if_pos h1]; subst h1; rfl
  rw [if_neg h1]
  by_cases h2 : c = '\\'
  · rw [if_pos h2]; subst h2; rfl
  rw [if_neg h2]
  by_cases h3 : c = '\n'
  · rw [if_pos h3]; subst h3; rfl
  rw [if_neg h3]
  by_cases h4 : c = '\r'
  · rw [if_pos h4]; subst h4; rfl
  rw [if_neg h4]
  by_cases h5 : c = '\t'
  · rw [if_pos h5]; subst h5; rfl
  rw [if_neg h5]
  by_cases h6 : c = '\x08'
  · rw [if_pos h6]; subst h6; rfl
  rw [if_neg h6]
  by_cases h7 : c = '\x0c'
  · rw [if_pos h7]; subst h7; rfl
  rw [if_neg h7]
  by_cases h8 : c.toNat < 0x20
  · rw [if_pos h8]
    have d1 := hexNibble_digitChar (k := c.toNat / 16) (by omega)
    have d2 := hexNibble_digitChar (k := c.toNat % 16) (Nat.mod_lt _ (by omega))
    have hz : hexNibble '0' = some 0 := by decide
    show strBody acc
      ('\\' :: 'u' :: '0' :: '0' :: Nat.digitChar (c.toNat / 16) ::
        Nat.digitChar (c.toNat % 16) :: rest) = strBody (c :: acc) rest
    rw [strBody, hz, d1, d2]
    have harith : ((0 * 16 + 0) * 16 + c.toNat / 16) * 16 + c.toNat % 16 = c.toNat := by omega
    show strBody (Char.ofNat (((0 * 16 + 0) * 16 + c.toNat / 16) * 16 + c.toNat % 16) :: acc)
      rest = strBody (c :: acc) rest
    rw [harith, Char.ofNat_toNat]
  · rw [if_neg h8]
    show strBody acc (c :: rest) = strBody (c :: acc) rest
    rw [strBody.eq_def]
    simp [h1, h2]

theorem strBody_flat (cs : List Char) : ∀ acc rest : List Char,
    strBody acc (cs.flatMap jsonEscapeChar ++ ('"' :: rest)) =
      some (String.mk (acc.reverse ++ cs), rest) := by
  induction cs with
  | nil => intro acc rest; simp [strBody]
  | cons c cs ih =>
    intro acc rest
    rw [List.flatMap_cons, List.append_assoc, strBody_escape, ih]
    simp

theorem parse_jsonQuote (s : String) (rest : List Char) :
    strBody [] (s.data.flatMap jsonEscapeChar ++ ('"' :: rest)) = some (s, rest) := by
  rw [strBody_flat]
  rfl

/-! ## Digit runs and the integer token -/

theorem digitRun_stop {cs : List Char} (h : digitBoundary cs = true) : digitRun cs = ([], cs) := by
  cases cs with
  | nil => rfl
  | cons c t =>
    simp only [digitBoundary, Bool.not_eq_true'] at h
    simp [digitRun, h]

theorem digitRun_run (ds : List Char) (hd : ∀ c ∈ ds, c.isDigit = true) (rest : List Char)
    (hb : digitBoundary rest = true) : digitRun (ds ++ rest) = (ds, rest) := by
  induction ds with
  | nil => simpa using digitRun_stop hb
  | cons c t ih =>
    have hc := hd c (by simp)
    rw [List.cons_append]
    simp [digitRun, hc, ih (fun x hx => hd x (by simp [hx]))]

theorem natChars_cons (n : Nat) : ∃ c t, natChars n = c :: t ∧ c.isDigit = true := by
  cases h : natChars n with
  | nil => exact absurd h (natChars_ne_nil n)
  | cons c t => exact ⟨c, t, rfl, natChars_digits n c (h ▸ List.mem_cons_self _ _)⟩

theorem digit_ne_minus {c : Char} (h : c.isDigit = true) : c ≠ '-' :=
  fun e => absurd (e ▸ h) (by decide)

theorem parseIntTok_intChars (i : Int) (rest : List Char) (hb : digitBoundary rest = true) :
    parseIntTok (intChars i ++ rest) = some (i, rest) := by
  by_cases hi : i < 0
  · rw [intChars, if_pos hi, List.cons_append]
    show (match digitRun (natChars i.natAbs ++ rest) with
          | ([], _) => none
          | (ds, r) => some (-(digitsVal ds : Int), r)) = some (i, rest)
    rw [digitRun_run (natChars i.natAbs) (natChars_digits _) rest hb]
    obtain ⟨c, t, hct, -⟩ := natChars_cons i.natAbs
    rw [hct]
    show some (-(digitsVal (c :: t) : Int), rest) = some (i, rest)
    rw [← hct, digitsVal_natChars]
    have hcast : -((i.natAbs : Int)) = i := by omega
    rw [hcast]
  · obtain ⟨c, t, hct, hc⟩ := natChars_cons i.natAbs
    have hcm := digit_ne_minus hc
    rw [intChars, if_neg hi, hct, List.cons_append, parseIntTok.eq_def]
    split
    · rename_i cs heq
      rw [List.cons.injEq] at heq
      exact absurd heq.1 hcm
    · rw [← List.cons_append, ← hct,
          digitRun_run (natChars i.natAbs) (natChars_digits _) rest hb, hct]
      show some ((digitsVal (c :: t) : Int), rest) = some (i, rest)
      rw [← hct, digitsVal_natChars]
      have hcast : ((i.natAbs : Int)) = i := by omega
      rw [hcast]

/-! ## Whitespace skipping over rendered output -/

theorem jskip_cons_not {c : Char} {t : List Char} (h : isJsonWs c = false) :
    jskip (c :: t) = c :: t := by
  simp [jskip, h]

theorem jskip_wsrun (l : List Char) (hw : ∀ c ∈ l, isJsonWs c = true) (x : List Char) :
    jskip (l ++ x) = jskip x := by
  induction l with
  | nil => rfl
  | cons c t ih =>
    have hc := hw c (by simp)
    rw [List.cons_append]
    simp [jskip, hc, ih (fun d hd => hw d (by simp [hd]))]

theorem jsonPad_ws (d : Nat) : ∀ c ∈ jsonPad d, isJsonWs c = true := by
  intro c hc
  rw [jsonPad] at hc
  rw [List.eq_of_mem_replicate hc]
  rfl

theorem jsonOpen_ws (mode : Option Nat) : ∀ c ∈ jsonOpen mode, isJsonWs c = true := by
  cases mode with
  | none => simp [jsonOpen]
  | some d =>
    intro c hc
    rw [jsonOpen] at hc
    rcases List.mem_cons.mp hc with rfl | hc
    · rfl
    · exact jsonPad_ws _ c hc

theorem jsonClose_ws (mode : Option Nat) : ∀ c ∈ jsonClose mode, isJsonWs c = true := by
  cases mode with
  | none => simp [jsonClose]
  | some d =>
    intro c hc
    rw [jsonClose] at hc
    rcases List.mem_cons.mp hc with rfl | hc
    · rfl
    · exact jsonPad_ws _ c hc

theorem parseVal_ws (fuel : Nat) (l : List Char) (hw : ∀ c ∈ l, isJsonWs c = true)
    (x : List Char) : parseVal fuel (l ++ x) = parseVal fuel x := by
  cases fuel with
  | zero => rfl
  | succ f =>
    show (match jskip (l ++ x) with
          | 'n' :: 'u' :: 'l' :: 'l' :: r => some (Record.scalar .null, r)
          | 't' :: 'r' :: 'u' :: 'e' :: r => some (.scalar (.bool true), r)
          | 'f' :: 'a' :: 'l' :: 's' :: 'e' :: r => some (.scalar (.bool false), r)
          | '"' :: r =>
            match strBody [] r with
            | some (s, r1) => some (.scalar (.str s), r1)
            | none => none
          | '{' :: r =>
            match jskip r with
            | '}' :: r1 => some (.dict [], r1)
            | r1 =>
              match parseMembers f r1 with
              | some (ms, r2) => some (.dict (pyDict ms), r2)
              | none => none
          | '[' :: r =>
            match jskip r with
            | ']' :: r1 => some (.list [], r1)
            | r1 =>
              match parseElems f r1 with
              | some (xs, r2) => some (.list xs, r2)
              | none => none
          | c :: r =>
            if c = '-' ∨ c.isDigit then
              match parseIntTok (c :: r) with
              | some (n, r1) => some (.scalar (.int n), r1)
              | none => none
            else none
          | [] => none) = parseVal (f + 1) x
    rw [jskip_wsrun l hw x]
    rfl

theorem parseMembers_ws (fuel : Nat) (l : List Char) (hw : ∀ c ∈ l, isJsonWs c = true)
    (x : List Char) : parseMembers fuel (l ++ x) = parseMembers fuel x := by
  cases fuel with
  | zero => rfl
  | succ f =>
    show (match jskip (l ++ x) with
          | '"' :: r =>
            match strBody [] r with
            | none => none
            | some (k, r1) =>
              match jskip r1 with
              | ':' :: r2 =>
                match parseVal f r2 with
                | none => none
                | some (v, r3) =>
                  match jskip r3 with
                  | ',' :: r4 =>
                    match parseMembers f r4 with
                    | some (ms, r5) => some ((k, v) :: ms, r5)
                    | none => none
                  | '}' :: r4 => some ([(k, v)], r4)
                  | _ => none
              | _ => none
          | _ => none) = parseMembers (f + 1) x
    rw [jskip_wsrun l hw x]
    rfl

/-! ## Character classes and token boundaries -/

theorem digit_not_ws {c : Char} (h : c.isDigit = true) : isJsonWs c = false := by
  cases hw : isJsonWs c with
  | false => rfl
  | true =>
    exfalso
    simp only [isJsonWs, Bool.or_eq_true, decide_eq_true_eq] at hw
    rcases hw with ((rfl | rfl) | rfl) | rfl <;> exact absurd h (by decide)

theorem digit_not_starters {c : Char} (h : c.isDigit = true) :
    c ≠ 'n' ∧ c ≠ 't' ∧ c ≠ 'f' ∧ c ≠ '"' ∧ c ≠ '{' ∧ c ≠ '[' ∧ c ≠ '}' ∧ c ≠ ']' := by
  refine ⟨?_, ?_, ?_, ?_, ?_, ?_, ?_, ?_⟩ <;> (rintro rfl; exact absurd h (by decide))

theorem jsonBoundary_digitB {rest : List Char} (h : jsonBoundary rest = true) :
    digitBoundary rest = true := by
  cases rest with
  | nil => rfl
  | cons c t =>
    simp only [jsonBoundary, Bool.or_eq_true, decide_eq_true_eq] at h
    simp only [digitBoundary, Bool.not_eq_true']
    rcases h with ((rfl | rfl) | rfl) | rfl <;> decide

theorem jsonBoundary_brace (mode : Option Nat) (y : List Char) :
    jsonBoundary (jsonClose mode ++ ('}' :: y)) = true := by
  cases mode <;> simp [jsonClose, jsonBoundary]

theorem jsonBoundary_bracket (mode : Option Nat) (y : List Char) :
    jsonBoundary (jsonClose mode ++ (']' :: y)) = true := by
  cases mode <;> simp [jsonClose, jsonBoundary]

theorem jsonBoundary_sep (mode : Option Nat) (y : List Char) :
    jsonBoundary (jsonSep mode ++ y) = true := by
  cases mode <;> simp [jsonSep, jsonBoundary]

theorem jsonSep_form (mode : Option Nat) :
    ∃ wsl, jsonSep mode = ',' :: wsl ∧ ∀ c ∈ wsl, isJsonWs c = true := by
  cases mode with
  | none => exact ⟨[' '], rfl, by decide⟩
  | some d =>
    refine ⟨'\n' :: jsonPad (d + 1), rfl, ?_⟩
    intro c hc
    rcases List.mem_cons.mp hc with rfl | hc
    · rfl
    · exact jsonPad_ws _ c hc

theorem jsonClose_form (mode : Option Nat) :
    ∀ c ∈ jsonClose mode, isJsonWs c = true := jsonClose_ws mode

/-! ## Shapes of rendered JSON -/

theorem jsonVal_shape (t : Record) (mode : Option Nat) :
    ∃ c tl, jsonVal t mode = c :: tl ∧ isJsonWs c = false ∧ c ≠ '}' ∧ c ≠ ']' := by
  cases t with
  | scalar v =>
    cases v with
    | str s => exact ⟨'"', _, rfl, by decide, by decide, by decide⟩
    | int n =>
      by_cases hn : n < 0
      · refine ⟨'-', natChars n.natAbs, ?_, by decide, by decide, by decide⟩
        show intChars n = _
        rw [intChars, if_pos hn]
      · obtain ⟨c, tl, hct, hc⟩ := natChars_cons n.natAbs
        obtain ⟨-, -, -, -, -, -, hbr, hbk⟩ := digit_not_starters hc
        refine ⟨c, tl, ?_, digit_not_ws hc, hbr, hbk⟩
        show intChars n = _
        rw [intChars, if_neg hn, hct]
    | bool b =>
      rcases b with _ | _
      · exact ⟨'f', ['a', 'l', 's', 'e'], rfl, rfl, by decide, by decide⟩
      · exact ⟨'t', ['r', 'u', 'e'], rfl, rfl, by decide, by decide⟩
    | null => exact ⟨'n', ['u', 'l', 'l'], rfl, rfl, by decide, by decide⟩
  | dict fs =>
    cases fs with
    | nil => exact ⟨'{', _, rfl, by decide, by decide, by decide⟩
    | cons e es => exact ⟨'{', _, rfl, by decide, by decide, by decide⟩
  | list its =>
    cases its with
    | nil => exact ⟨'[', _, rfl, by decide, by decide, by decide⟩
    | cons x xs => exact ⟨'[', _, rfl, by decide, by decide, by decide⟩

theorem jsonMembers_eq_cons (m : String × Record) (ms : List (String × Record))
    (mode : Option Nat) : ∃ tail, jsonMembers (m :: ms) mode = '"' :: tail := by
  obtain ⟨k, v⟩ := m
  cases ms with
  | nil => exact ⟨_, rfl⟩
  | cons m2 rest => exact ⟨_, rfl⟩

theorem jsonQuote_len (k : String) : 2 ≤ (jsonQuote k).length := by
  rw [jsonQuote]
  simp [List.length_append]

/-! ## Well-formedness, unpacked -/

theorem nodupKeysB_nodup : ∀ {ks : List String}, nodupKeysB ks = true → ks.Nodup := by
  intro ks
  induction ks with
  | nil => intro _; exact List.nodup_nil
  | cons k rest ih =>
    intro h
    simp only [nodupKeysB, Bool.and_eq_true, Bool.not_eq_true'] at h
    obtain ⟨h1, h2⟩ := h
    refine List.nodup_cons.mpr ⟨?_, ih h2⟩
    intro hmem
    exact absurd hmem (by simpa using h1)

theorem wfRec_dict {fs : List (String × Record)} (h : wfRec (.dict fs) = true) :
    nodupKeysB (fs.map Prod.fst) = true ∧ wfFields fs = true := by
  simpa [wfRec, Bool.and_eq_true] using h

theorem wfRec_list {its : List Record} (h : wfRec (.list its) = true) :
    wfItems its = true := by
  simpa [wfRec] using h

theorem wfFields_cons {m : String × Record} {ms : List (String × Record)}
    (h : wfFields (m :: ms) = true) : wfRec m.2 = true ∧ wfFields ms = true := by
  obtain ⟨k, v⟩ := m
  simpa [wfFields, Bool.and_eq_true] using h

theorem wfItems_cons {x : Record} {xs : List Record}
    (h : wfItems (x :: xs) = true) : wfRec x = true ∧ wfItems xs = true := by
  simpa [wfItems, Bool.and_eq_true] using h

/-! ## One-step unfoldings of the parser (definitional) -/

theorem parseVal_brace (fuel : Nat) (r : List Char) :
    parseVal (fuel + 1) ('{' :: r) =
      (match jskip r with
       | '}' :: r1 => some (.dict [], r1)
       | r1 =>
         match parseMembers fuel r1 with
         | some (ms, r2) => some (.dict (pyDict ms), r2)
         | none => none) := rfl

theorem parseVal_bracket (fuel : Nat) (r : List Char) :
    parseVal (fuel + 1) ('[' :: r) =
      (match jskip r with
       | ']' :: r1 => some (.list [], r1)
       | r1 =>
         match parseElems fuel r1 with
         | some (xs, r2) => some (.list xs, r2)
         | none => none) := rfl

theorem parseVal_quote (fuel : Nat) (r : List Char) :
    parseVal (fuel + 1) ('"' :: r) =
      (match strBody [] r with
       | some (s, r1) => some (.scalar (.str s), r1)
       | none => none) := rfl

theorem parseMembers_quote (fuel : Nat) (r : List Char) :
    parseMembers (fuel + 1) ('"' :: r) =
      (match strBody [] r with
       | none => none
       | some (k, r1) =>
         match jskip r1 with
         | ':' :: r2 =>
           match parseVal fuel r2 with
           | none => none
           | some (v, r3) =>
             match jskip r3 with
             | ',' :: r4 =>
               match parseMembers fuel r4 with
               | some (ms, r5) => some ((k, v) :: ms, r5)
               | none => none
             | '}' :: r4 => some ([(k, v)], r4)
             | _ => none
         | _ => none) := rfl

theorem parseElems_step (fuel : Nat) (cs : List Char) :
    parseElems (fuel + 1) cs =
      (match parseVal fuel cs with
       | none => none
       | some (v, r) =>
         match jskip r with
         | ',' :: r1 =>
           match parseElems fuel r1 with
           | some (xs, r2) => some (v :: xs, r2)
           | none => none
         | ']' :: r1 => some ([v], r1)
         | _ => none) := rfl

theorem parseVal_int (i : Int) (fuel : Nat) (rest : List Char)
    (hb : jsonBoundary rest = true) :
    parseVal (fuel + 1) (intChars i ++ rest) = some (.scalar (.int i), rest) := by
  have hdb := jsonBoundary_digitB hb
  by_cases hi : i < 0
  · have hp := parseIntTok_intChars i rest hdb
    rw [intChars, if_pos hi, List.cons_append] at hp ⊢
    show (match parseIntTok ('-' :: (natChars i.natAbs ++ rest)) with
          | some (n, r1) => some (Record.scalar (.int n), r1)
          | none => none) = some (.scalar (.int i), rest)
    rw [hp]
  · obtain ⟨c, t, hct, hc⟩ := natChars_cons i.natAbs
    have hws := digit_not_ws hc
    obtain ⟨hn, ht2, hf2, hq, hbc, hbk, -, -⟩ := digit_not_starters hc
    have hp := parseIntTok_intChars i rest hdb
    rw [intChars, if_neg hi, hct, List.cons_append] at hp ⊢
    simp only [parseVal]
    rw [jskip_cons_not hws]
    simp [hn, ht2, hf2, hq, hbc, hbk, hc, hp]
theorem parseElems_ws (fuel : Nat) (l : List Char) (hw : ∀ c ∈ l, isJsonWs c = true)
    (x : List Char) : parseElems fuel (l ++ x) = parseElems fuel x := by
  cases fuel with
  | zero => rfl
  | succ f => rw [parseElems_step, parseElems_step, parseVal_ws f l hw x]

theorem jsonVal_len_pos (t : Record) (mode : Option Nat) : 1 ≤ (jsonVal t mode).length := by
  obtain ⟨c, tl, hct, -⟩ := jsonVal_shape t mode
  rw [hct]
  simp

/-! ## The codec round trip (claim C4) -/

mutual
theorem rtVal : ∀ (fuel : Nat) (t : Record) (mode : Option Nat) (rest : List Char),
    wfRec t = true → (jsonVal t mode).length < fuel → jsonBoundary rest = true →
    parseVal fuel (jsonVal t mode ++ rest) = some (t, rest)
  | 0, _, _, _, _, hf, _ => absurd hf (by omega)
  | fuel + 1, .scalar .null, _, _, _, _, _ => rfl
  | fuel + 1, .scalar (.bool true), _, _, _, _, _ => rfl
  | fuel + 1, .scalar (.bool false), _, _, _, _, _ => rfl
  | fuel + 1, .scalar (.int n), _, rest, _, _, hb => parseVal_int n fuel rest hb
  | fuel + 1, .scalar (.str s), mode, rest, _, _, _ => by
    have harg : jsonVal (.scalar (.str s)) mode ++ rest =
        '"' :: (s.data.flatMap jsonEscapeChar ++ ('"' :: rest)) := by
      show jsonQuote s ++ rest = _
      rw [jsonQuote]
      simp [List.append_assoc]
    rw [harg, parseVal_quote, parse_jsonQuote]
  | fuel + 1, .dict [], _, _, _, _, _ => rfl
  | fuel + 1, .dict (m :: ms), mode, rest, hwf, hf, _ => by
    obtain ⟨hnodup, hwfF⟩ := wfRec_dict hwf
    obtain ⟨tail, htail⟩ := jsonMembers_eq_cons m ms mode
    have harg : jsonVal (.dict (m :: ms)) mode ++ rest =
        '{' :: (jsonOpen mode ++ (jsonMembers (m :: ms) mode ++
          (jsonClose mode ++ ('}' :: rest)))) := by
      show '{' :: (jsonOpen mode ++ (jsonMembers (m :: ms) mode ++
          (jsonClose mode ++ ['}']))) ++ rest = _
      simp [List.append_assoc]
    have hlen : (jsonMembers (m :: ms) mode).length + 1 < fuel := by
      have h2 : (jsonVal (.dict (m :: ms)) mode).length =
          ('{' :: (jsonOpen mode ++ (jsonMembers (m :: ms) mode ++
            (jsonClose mode ++ ['}'])))).length := rfl
      rw [h2] at hf
      simp only [List.length_cons, List.length_append] at hf
      omega
    rw [harg, parseVal_brace, jskip_wsrun (jsonOpen mode) (jsonOpen_ws mode), htail,
        List.cons_append, jskip_cons_not (by decide)]
    show (match parseMembers fuel ('"' :: (tail ++ (jsonClose mode ++ ('}' :: rest)))) with
          | some (ms2, r2) => some (Record.dict (pyDict ms2), r2)
          | none => none) = some (.dict (m :: ms), rest)
    rw [← List.cons_append, ← htail, rtMembers fuel m ms mode rest hwfF hlen]
    show some (Record.dict (pyDict (m :: ms)), rest) = some (.dict (m :: ms), rest)
    rw [pyDict_eq_self (nodupKeysB_nodup hnodup)]
  | fuel + 1, .list [], _, _, _, _, _ => rfl
  | fuel + 1, .list (x :: xs), mode, rest, hwf, hf, _ => by
    have hwfI := wfRec_list hwf
    obtain ⟨c, tl, hct, hws, -, hbk⟩ := jsonVal_shape x (modeDown mode)
    have hel : ∃ tail2, jsonElems (x :: xs) mode = c :: tail2 := by
      cases xs with
      | nil =>
        refine ⟨tl, ?_⟩
        show jsonVal x (modeDown mode) = _
        rw [hct]
      | cons y ys =>
        refine ⟨tl ++ (jsonSep mode ++ jsonElems (y :: ys) mode), ?_⟩
        show jsonVal x (modeDown mode) ++ (jsonSep mode ++ jsonElems (y :: ys) mode) = _
        rw [hct, List.cons_append]
    obtain ⟨tail2, htail2⟩ := hel
    have harg : jsonVal (.list (x :: xs)) mode ++ rest =
        '[' :: (jsonOpen mode ++ (jsonElems (x :: xs) mode ++
          (jsonClose mode ++ (']' :: rest)))) := by
      show '[' :: (jsonOpen mode ++ (jsonElems (x :: xs) mode ++
          (jsonClose mode ++ [']']))) ++ rest = _
      simp [List.append_assoc]
    have hlen : (jsonElems (x :: xs) mode).length + 1 < fuel := by
      have h2 : (jsonVal (.list (x :: xs)) mode).length =
          ('[' :: (jsonOpen mode ++ (jsonElems (x :: xs) mode ++
            (jsonClose mode ++ [']'])))).length := rfl
      rw [h2] at hf
      simp only [List.length_cons, List.length_append] at hf
      omega
    rw [harg, parseVal_bracket, jskip_wsrun (jsonOpen mode) (jsonOpen_ws mode), htail2,
        List.cons_append, jskip_cons_not hws]
    split
    · rename_i r1 heq
      rw [List.cons.injEq] at heq
      exact absurd heq.1 hbk
    · rw [← List.cons_append, ← htail2, rtElems fuel x xs mode rest hwfI hlen]

theorem rtMembers : ∀ (fuel : Nat) (m : String × Record) (ms : List (String × Record))
    (mode : Option Nat) (rest : List Char),
    wfFields (m :: ms) = true → (jsonMembers (m :: ms) mode).length + 1 < fuel →
    parseMembers fuel (jsonMembers (m :: ms) mode ++ (jsonClose mode ++ ('}' :: rest))) =
      some (m :: ms, rest)
  | 0, _, _, _, _, _, hf => absurd hf (by omega)
  | fuel + 1, (k, v), [], mode, rest, hwf, hf => by
    obtain ⟨hwv, -⟩ := wfFields_cons hwf
    have harg : jsonMembers [(k, v)] mode ++ (jsonClose mode ++ ('}' :: rest)) =
        '"' :: (k.data.flatMap jsonEscapeChar ++ ('"' :: (':' :: (' ' ::
          (jsonVal v (modeDown mode) ++ (jsonClose mode ++ ('}' :: rest))))))) := by
      show (jsonQuote k ++ (':' :: ' ' :: jsonVal v (modeDown mode))) ++
          (jsonClose mode ++ ('}' :: rest)) = _
      rw [jsonQuote]
      simp [List.append_assoc]
    have hlenv : (jsonVal v (modeDown mode)).length < fuel := by
      have h2 : (jsonMembers [(k, v)] mode).length =
          (jsonQuote k ++ (':' :: ' ' :: jsonVal v (modeDown mode))).length := rfl
      rw [h2] at hf
      have hq2 := jsonQuote_len k
      simp only [List.length_append, List.length_cons] at hf
      omega
    have hpw : parseVal fuel (' ' :: (jsonVal v (modeDown mode) ++
        (jsonClose mode ++ ('}' :: rest)))) = parseVal fuel (jsonVal v (modeDown mode) ++
        (jsonClose mode ++ ('}' :: rest))) :=
      parseVal_ws fuel [' '] (by decide) _
    have hv := rtVal fuel v (modeDown mode) (jsonClose mode ++ ('}' :: rest)) hwv hlenv
      (jsonBoundary_brace mode rest)
    have hskip : jskip (jsonClose mode ++ ('}' :: rest)) = '}' :: rest := by
      rw [jskip_wsrun _ (jsonClose_ws mode)]
      exact jskip_cons_not (by decide)
    rw [harg, parseMembers_quote, parse_jsonQuote]
    simp +decide [jskip, isJsonWs, hpw, hv, hskip]
  | fuel + 1, (k, v), m2 :: ms2, mode, rest, hwf, hf => by
    obtain ⟨hwv, hwfRest⟩ := wfFields_cons hwf
    obtain ⟨wsl, hsep, hwsl⟩ := jsonSep_form mode
    have harg : jsonMembers ((k, v) :: m2 :: ms2) mode ++ (jsonClose mode ++ ('}' :: rest)) =
        '"' :: (k.data.flatMap jsonEscapeChar ++ ('"' :: (':' :: (' ' ::
          (jsonVal v (modeDown mode) ++ (',' :: (wsl ++ (jsonMembers (m2 :: ms2) mode ++
            (jsonClose mode ++ ('}' :: rest)))))))))) := by
      show (jsonQuote k ++ (':' :: ' ' :: jsonVal v (modeDown mode)) ++
          (jsonSep mode ++ jsonMembers (m2 :: ms2) mode)) ++
          (jsonClose mode ++ ('}' :: rest)) = _
      rw [jsonQuote, hsep]
      simp [List.append_assoc]
    have hlens : (jsonVal v (modeDown mode)).length < fuel ∧
        (jsonMembers (m2 :: ms2) mode).length + 1 < fuel := by
      have h2 : (jsonMembers ((k, v) :: m2 :: ms2) mode).length =
          ((jsonQuote k ++ (':' :: ' ' :: jsonVal v (modeDown mode))) ++
            (jsonSep mode ++ jsonMembers (m2 :: ms2) mode)).length := by
        rw [jsonMembers]
      rw [h2] at hf
      have hq2 := jsonQuote_len k
      have hvp := jsonVal_len_pos v (modeDown mode)
      have hsl : 1 ≤ (jsonSep mode).length := by rw [hsep]; simp
      simp only [List.length_append, List.length_cons] at hf
      constructor <;> omega
    have hpw : parseVal fuel (' ' :: (jsonVal v (modeDown mode) ++
        (',' :: (wsl ++ (jsonMembers (m2 :: ms2) mode ++
          (jsonClose mode ++ ('}' :: rest))))))) =
        parseVal fuel (jsonVal v (modeDown mode) ++
          (',' :: (wsl ++ (jsonMembers (m2 :: ms2) mode ++
            (jsonClose mode ++ ('}' :: rest)))))) :=
      parseVal_ws fuel [' '] (by decide) _
    have hv := rtVal fuel v (modeDown mode)
      (',' :: (wsl ++ (jsonMembers (m2 :: ms2) mode ++ (jsonClose mode ++ ('}' :: rest)))))
      hwv hlens.1 (by simp [jsonBoundary])
    have hmw : parseMembers fuel (wsl ++ (jsonMembers (m2 :: ms2) mode ++
        (jsonClose mode ++ ('}' :: rest)))) =
        parseMembers fuel (jsonMembers (m2 :: ms2) mode ++
          (jsonClose mode ++ ('}' :: rest))) :=
      parseMembers_ws fuel wsl hwsl _
    have hm := rtMembers fuel m2 ms2 mode rest hwfRest hlens.2
    rw [harg, parseMembers_quote, parse_jsonQuote]
    simp +decide [jskip, isJsonWs, hpw, hv, hmw, hm]

theorem rtElems : ∀ (fuel : Nat) (x : Record) (xs : List Record)
    (mode : Option Nat) (rest : List Char),
    wfItems (x :: xs) = true → (jsonElems (x :: xs) mode).length + 1 < fuel →
    parseElems fuel (jsonElems (x :: xs) mode ++ (jsonClose mode ++ (']' :: rest))) =
      some (x :: xs, rest)
  | 0, _, _, _, _, _, hf => absurd hf (by omega)
  | fuel + 1, x, [], mode, rest, hwf, hf => by
    obtain ⟨hwx, -⟩ := wfItems_cons hwf
    have hlenv : (jsonVal x (modeDown mode)).length < fuel := by
      have h2 : (jsonElems [x] mode).length = (jsonVal x (modeDown mode)).length := rfl
      omega
    have heq : jsonElems [x] mode = jsonVal x (modeDown mode) := rfl
    have hv := rtVal fuel x (modeDown mode) (jsonClose mode ++ (']' :: rest)) hwx hlenv
      (jsonBoundary_bracket mode rest)
    have hskip : jskip (jsonClose mode ++ (']' :: rest)) = ']' :: rest := by
      rw [jskip_wsrun _ (jsonClose_ws mode)]
      exact jskip_cons_not (by decide)
    rw [heq, parseElems_step, hv]
    simp [hskip]
  | fuel + 1, x, y :: ys, mode, rest, hwf, hf => by
    obtain ⟨hwx, hwfRest⟩ := wfItems_cons hwf
    obtain ⟨wsl, hsep, hwsl⟩ := jsonSep_form mode
    have harg : jsonElems (x :: y :: ys) mode ++ (jsonClose mode ++ (']' :: rest)) =
        jsonVal x (modeDown mode) ++ (',' :: (wsl ++ (jsonElems (y :: ys) mode ++
          (jsonClose mode ++ (']' :: rest))))) := by
      show (jsonVal x (modeDown mode) ++ (jsonSep mode ++ jsonElems (y :: ys) mode)) ++
          (jsonClose mode ++ (']' :: rest)) = _
      rw [hsep]
      simp [List.append_assoc]
    have hlens : (jsonVal x (modeDown mode)).length < fuel ∧
        (jsonElems (y :: ys) mode).length + 1 < fuel := by
      have h2 : (jsonElems (x :: y :: ys) mode).length =
          (jsonVal x (modeDown mode) ++ (jsonSep mode ++ jsonElems (y :: ys) mode)).length := by
        rw [jsonElems]
      rw [h2] at hf
      have hvp := jsonVal_len_pos x (modeDown mode)
      have hsl : 1 ≤ (jsonSep mode).length := by rw [hsep]; simp
      simp only [List.length_append, List.length_cons] at hf
      constructor <;> omega
    have hv := rtVal fuel x (modeDown mode)
      (',' :: (wsl ++ (jsonElems (y :: ys) mode ++ (jsonClose mode ++ (']' :: rest)))))
      hwx hlens.1 (by simp [jsonBoundary])
    have hew : parseElems fuel (wsl ++ (jsonElems (y :: ys) mode ++
        (jsonClose mode ++ (']' :: rest)))) =
        parseElems fuel (jsonElems (y :: ys) mode ++ (jsonClose mode ++ (']' :: rest))) :=
      parseElems_ws fuel wsl hwsl _
    have he := rtElems fuel y ys mode rest hwfRest hlens.2
    rw [harg, parseElems_step, hv]
    simp +decide [jskip, isJsonWs, hew, he]
end

/-- C4: parsing the JSON renderer's output reconstructs the record tree
exactly — insertion order of every dict included — in both the compact and
the pretty (2-space-indented) modes, for every well-formed tree (pairwise
distinct keys per dict, the data model's invariant). -/
theorem claim4_json_round_trip (t : Record) (h : wfRec t = true) :
    json_loads (json_dumps t) = some t ∧ json_loads (json_dumps_pretty t) = some t := by
  constructor
  · have hv := rtVal ((jsonVal t none).length + 1) t none [] h (by omega) rfl
    rw [List.append_nil] at hv
    show (match parseVal ((jsonVal t none).length + 1) (jsonVal t none) with
          | some (t2, r) => if jskip r = [] then some t2 else none
          | none => none) = some t
    rw [hv]
    rfl
  · have hv := rtVal ((jsonVal t (some 0)).length + 1) t (some 0) [] h (by omega) rfl
    rw [List.append_nil] at hv
    show (match parseVal ((jsonVal t (some 0)).length + 1) (jsonVal t (some 0)) with
          | some (t2, r) => if jskip r = [] then some t2 else none
          | none => none) = some t
    rw [hv]
    rfl

/-- Concrete instance of C4 on a tree touching every constructor. -/
theorem claim4_json_round_trip_witness :
    wfRec sampleTree = true ∧
    json_loads (json_dumps sampleTree) = some sampleTree ∧
    json_loads (json_dumps_pretty sampleTree) = some sampleTree := by
  have hwf : wfRec sampleTree = true := by decide
  exact ⟨hwf, (claim4_json_round_trip sampleTree hwf).1,
    (claim4_json_round_trip sampleTree hwf).2⟩

end HwInfo
